import Mathlib

/-!
Verification of the BFHL data-analysis pipeline.

This file shallowly embeds the repository's core computations:
the token classifier of `processBfhl` (src/controllers/bfhl.controller.js),
the number-theory service (`math.service.js`: `isPrime`, `getPrimeNumbers`,
`getFibonacciSequence`, `calculateLCM`, `calculateHCF`, `calculateMode`),
and the analysis service (`ai.service.js`: `detectPatterns`,
`detectAnomalies`, `detectClusters`, complexity/quality scoring).

JavaScript numbers are idealised as exact rationals extended with the three
non-finite values `Infinity`, `-Infinity` and `NaN` (IEEE-754 rounding is not
modelled; all inputs of interest are small integers where doubles are exact).
-/

set_option maxRecDepth 4096

/-- An extended JavaScript number: a finite rational, one of the two
infinities, or NaN. -/
inductive JsNum where
  | fin (q : ℚ)
  | posInf
  | negInf
  | nan
deriving DecidableEq

/-- A raw input token: the request validation layer admits only strings and
finite in-range numbers, so a numeric token always carries a finite value. -/
inductive Token where
  | num (q : ℚ)
  | str (s : String)
deriving DecidableEq

/-- JavaScript `a + b` on extended numbers: NaN propagates and the two
infinities of opposite sign annihilate to NaN. -/
def jsAdd : JsNum → JsNum → JsNum
  | .nan, _ => .nan
  | _, .nan => .nan
  | .posInf, .negInf => .nan
  | .negInf, .posInf => .nan
  | .posInf, _ => .posInf
  | _, .posInf => .posInf
  | .negInf, _ => .negInf
  | _, .negInf => .negInf
  | .fin a, .fin b => .fin (a + b)

/-- JavaScript unary minus. -/
def jsNeg : JsNum → JsNum
  | .fin a => .fin (-a)
  | .posInf => .negInf
  | .negInf => .posInf
  | .nan => .nan

/-- JavaScript `a - b`. -/
def jsSub (a b : JsNum) : JsNum := jsAdd a (jsNeg b)

/-- Whether an extended number is strictly positive (0 and NaN are not). -/
def jsIsPos : JsNum → Bool
  | .fin a => decide (0 < a)
  | .posInf => true
  | _ => false

/-- Whether an extended number is strictly negative. -/
def jsIsNeg : JsNum → Bool
  | .fin a => decide (a < 0)
  | .negInf => true
  | _ => false

/-- JavaScript `a * b`: NaN propagates, `0 * Infinity = NaN`, otherwise the
sign rule for infinities applies. -/
def jsMul : JsNum → JsNum → JsNum
  | .nan, _ => .nan
  | _, .nan => .nan
  | .fin a, .fin b => .fin (a * b)
  | a, b =>
    if a = .fin 0 ∨ b = .fin 0 then .nan
    else if (jsIsPos a && jsIsPos b) || (jsIsNeg a && jsIsNeg b) then .posInf
    else .negInf

/-- JavaScript `a / b`: `x/0` is a signed infinity for `x ≠ 0` and NaN for
`x = 0`; a finite number over an infinity is `0`; `∞/∞` is NaN. -/
def jsDiv : JsNum → JsNum → JsNum
  | .nan, _ => .nan
  | _, .nan => .nan
  | .fin a, .fin b =>
    if b = 0 then (if a = 0 then .nan else if 0 < a then .posInf else .negInf)
    else .fin (a / b)
  | .fin _, _ => .fin 0
  | a, .fin b =>
    if (jsIsPos a && decide (0 ≤ b)) || (jsIsNeg a && decide (b < 0))
    then .posInf else .negInf
  | _, _ => .nan

/-- JavaScript `a < b`: false whenever either side is NaN. -/
def jsLt : JsNum → JsNum → Bool
  | .nan, _ => false
  | _, .nan => false
  | .negInf, .negInf => false
  | .negInf, _ => true
  | _, .posInf => (true : Bool) -- fin or negInf already matched on the left
  | .posInf, _ => false
  | .fin a, .fin b => decide (a < b)
  | .fin _, .negInf => false

/-- JavaScript `a <= b`: false whenever either side is NaN. -/
def jsLe : JsNum → JsNum → Bool
  | .nan, _ => false
  | _, .nan => false
  | .negInf, _ => true
  | _, .posInf => true
  | .posInf, _ => false
  | .fin a, .fin b => decide (a ≤ b)
  | .fin _, .negInf => false

/-- JavaScript `===` on numbers: NaN is not equal to itself. -/
def jsStrictEq (a b : JsNum) : Bool :=
  if a = .nan ∨ b = .nan then false else a = b

/-- JavaScript `Math.abs`. -/
def jsAbs : JsNum → JsNum
  | .fin a => .fin |a|
  | .nan => .nan
  | _ => .posInf

/-- JavaScript `Math.floor`. -/
def jsFloorJs : JsNum → JsNum
  | .fin a => .fin (Rat.floor a : ℚ)
  | x => x

/-- Two-argument maximum as used by a fold for `Math.max(...xs)`: NaN
poisons, otherwise the larger value. -/
def jsMax2 (a b : JsNum) : JsNum :=
  if a = .nan ∨ b = .nan then .nan else if jsLt a b then b else a

/-- Two-argument minimum for `Math.min(...xs)`. -/
def jsMin2 (a b : JsNum) : JsNum :=
  if a = .nan ∨ b = .nan then .nan else if jsLt b a then b else a

/-- `Math.max(...l)` (`-Infinity` on the empty spread, as in JavaScript). -/
def jsMaxList (l : List JsNum) : JsNum := l.foldl jsMax2 .negInf

/-- `Math.min(...l)`. -/
def jsMinList (l : List JsNum) : JsNum := l.foldl jsMin2 .posInf

/-- JavaScript `x % m === 0` for an extended number `x` and a positive
integer modulus `m`: true exactly when `x` is an integer multiple of `m`
(the `fmod` of a non-integer or non-finite value by `m` is never `0`). -/
def jsModIsZero (x : JsNum) (m : ℕ) : Bool :=
  match x with
  | .fin q => decide (q.den = 1) && decide (q.num % (m : ℤ) = 0)
  | _ => false

/-- Insert into a list sorted by the boolean relation `le` (used to model
JavaScript `Array.prototype.sort` with a numeric comparator). -/
def insertSortedBy (le : α → α → Bool) (x : α) : List α → List α
  | [] => [x]
  | y :: ys => if le x y then x :: y :: ys else y :: insertSortedBy le x ys

/-- Insertion sort by a boolean relation. -/
def insertionSortBy (le : α → α → Bool) : List α → List α
  | [] => []
  | x :: xs => insertSortedBy le x (insertionSortBy le xs)

/-- Total order used to model the numeric sort comparator `(a, b) => a - b`
on extended numbers: `-Infinity` below all finite values below `Infinity`
(NaN, which never reaches a sort in this pipeline, is placed last). -/
def jsSortLe (a b : JsNum) : Bool :=
  match a, b with
  | .negInf, _ => true
  | _, .nan => true
  | .nan, _ => false
  | _, .posInf => true
  | .posInf, _ => false
  | .fin x, .fin y => decide (x ≤ y)
  | .fin _, .negInf => false

/-- JavaScript numeric `Array.prototype.sort` on extended numbers. -/
def sortJs (l : List JsNum) : List JsNum := insertionSortBy jsSortLe l

/-- The Euclidean loop of `mathService.gcdTwoNumbers`; in the service both
operands are already absolute integers when this runs, so it is modelled on
naturals (`Math.abs` is the identity there). -/
def gcdTwoNumbers (a b : ℕ) : ℕ :=
  if b = 0 then a else gcdTwoNumbers b (a % b)
termination_by b
decreasing_by exact Nat.mod_lt _ (Nat.pos_of_ne_zero (by assumption))

/-- `mathService.lcmTwoNumbers`: `0` if either operand is `0`, otherwise
`|a*b| / gcd(a,b)`. -/
def lcmTwoNumbers (a b : ℕ) : ℕ :=
  if a = 0 ∨ b = 0 then 0 else a * b / gcdTwoNumbers a b

/-- The `filteredNumbers` expression shared by `calculateLCM` and
`calculateHCF`: drop exact zeros, then take `Math.abs(Math.floor(num))` of
each remaining number. -/
def filteredNumbers (numbers : List ℚ) : List ℕ :=
  (numbers.filter (fun num => num ≠ 0)).map (fun num => (Rat.floor num).natAbs)

/-- `mathService.calculateLCM` on finite numbers.  A one-element input
short-circuits to `Math.abs(numbers[0])` before any filtering or truncation;
otherwise zeros are dropped, values truncated, and the two-argument lcm is
left-folded (`Array.prototype.reduce` with no initial value). -/
def calculateLCM (numbers : List ℚ) : Option ℚ :=
  if numbers.length = 0 then none
  else if numbers.length = 1 then some |numbers.headI|
  else
    match filteredNumbers numbers with
    | [] => some 0
    | [x] => some (x : ℚ)
    | x :: rest => some ((rest.foldl lcmTwoNumbers x : ℕ) : ℚ)

/-- `mathService.calculateHCF` on finite numbers; identical shape to
`calculateLCM` except the empty filtered set yields `null` rather than `0`. -/
def calculateHCF (numbers : List ℚ) : Option ℚ :=
  if numbers.length = 0 then none
  else if numbers.length = 1 then some |numbers.headI|
  else
    match filteredNumbers numbers with
    | [] => none
    | [x] => some (x : ℚ)
    | x :: rest => some ((rest.foldl gcdTwoNumbers x : ℕ) : ℚ)

/-- State threaded by the frequency scan of `calculateMode`: the prefix of
processed numbers (standing in for the `frequency` map, whose entry for `v`
is the count of `v` in the prefix), the running `maxFreq`, and `modes`. -/
structure ModeState where
  seen : List ℚ
  maxFreq : ℕ
  modes : List ℚ
deriving DecidableEq

/-- One iteration of the `for (const num of numbers)` loop in
`calculateMode`: bump the frequency of `num`, then either start a new modes
list (strictly larger frequency), append (ties not already recorded), or
leave the modes unchanged. -/
def modeStep (st : ModeState) (num : ℚ) : ModeState :=
  let seen := st.seen ++ [num]
  let f := seen.count num
  if st.maxFreq < f then ⟨seen, f, [num]⟩
  else if f = st.maxFreq ∧ num ∉ st.modes then ⟨seen, st.maxFreq, st.modes ++ [num]⟩
  else ⟨seen, st.maxFreq, st.modes⟩

/-- `mathService.calculateMode`: the scan above, then `null` when the modes
list is as long as the input (every value unique), else the modes list. -/
def calculateMode (numbers : List ℚ) : Option (List ℚ) :=
  let st := numbers.foldl modeStep ⟨[], 0, []⟩
  if st.modes.length = numbers.length then none else some st.modes

/-- JavaScript `q % m === 0` for a finite number `q` and positive integer
modulus `m` (the finite case of `jsModIsZero`): `fmod` of `q` by `m` is zero
exactly when `q` is an integer multiple of `m`. -/
def ratModIsZero (q : ℚ) (m : ℕ) : Bool :=
  decide (q.den = 1) && decide (q.num % (m : ℤ) = 0)

/-- `mathService.isPrime` on a finite number `n`.  The source's trial
division runs over odd `i` with `3 ≤ i ≤ Math.sqrt(n)`; for an integer
`i ≥ 1` and a rational `n > 2` the bound `i ≤ √n` is equivalent to
`i ≤ Nat.sqrt ⌊n⌋`, which indexes the candidate list here. -/
def isPrime (n : ℚ) : Bool :=
  if n < 2 then false
  else if n = 2 then true
  else if ratModIsZero n 2 then false
  else ((List.range (Nat.sqrt (Rat.floor n).toNat + 1)).filter
          (fun i => decide (3 ≤ i) && decide (i % 2 = 1))).all
        (fun i => !(ratModIsZero n i))

/-- `mathService.getPrimeNumbers` on finite numbers: keep the primes in
input order, then sort ascending with the numeric comparator. -/
def getPrimeNumbers (numbers : List ℚ) : List ℚ :=
  insertionSortBy (fun a b => decide (a ≤ b)) (numbers.filter isPrime)

/-- The composite-number predicate from `getMathematicalInsights`
(`n > 1 && !isPrime(n)`). -/
def isCompositeJs (n : ℚ) : Bool := decide (1 < n) && !(isPrime n)

/-- The arithmetic mean as computed by `reduce((a,b) => a+b, 0) / length`
(only ever applied to lists of length ≥ 3 in `detectAnomalies`). -/
def meanQ (numbers : List ℚ) : ℚ := numbers.sum / numbers.length

/-- The population variance `Σ (x − mean)² / n` computed inline by
`detectAnomalies` (the source then takes `stdDev = Math.sqrt` of this). -/
def varQ (numbers : List ℚ) : ℚ :=
  (numbers.map (fun num => (num - meanQ numbers) ^ 2)).sum / numbers.length

/-- Result of `aiService.detectAnomalies`.  `stats` carries the pair
(mean, variance); the JSON report exposes `stdDev = √variance` and
`threshold = 2·√variance`, which are determined by (and determine) the
variance, so the rational pair is a faithful, executable representation. -/
structure AnomalyResult where
  anomalies : List ℚ
  methodTag : String
  stats : Option (ℚ × ℚ)
deriving DecidableEq

/-- `aiService.detectAnomalies` on finite numbers.  The source filter is
`Math.abs(num - mean) > 2 * stdDev` with `stdDev = Math.sqrt(variance)`;
since the variance is nonnegative this holds iff
`(num - mean)² > 4·variance`, the exact rational test used here
(`anomalyCmp_iff` below proves the equivalence). -/
def detectAnomaliesRat (numbers : List ℚ) : AnomalyResult :=
  if numbers.length < 3 then ⟨[], "insufficient_data", none⟩
  else
    let mean := meanQ numbers
    let variance := varQ numbers
    ⟨numbers.filter (fun num => decide (4 * variance < (num - mean) ^ 2)),
     "statistical_outlier", some (mean, variance)⟩

/-- The body of `getFibonacciSequence`'s `while (true)` loop: `a` and `b`
are the last two elements of the accumulated sequence; stop as soon as
`next > maxValue`.  Fuel only bounds the recursion: each iteration appends
a strictly larger Fibonacci number (`next ≥` the iteration index), so
`⌊max⌋ + 3` iterations are never exhausted before the stop condition. -/
def fibLoopJs : ℕ → ℕ → ℕ → ℚ → List ℕ → List ℕ
  | 0, _, _, _, acc => acc
  | fuel + 1, a, b, maxV, acc =>
    let next := a + b
    if maxV < (next : ℚ) then acc
    else fibLoopJs fuel b next maxV (acc ++ [next])

/-- `mathService.getFibonacciSequence`.  On `Infinity` (or NaN) the source's
`while (true)` loop never meets its exit condition and the request never
completes, modelled as `none`. -/
def getFibonacciSequence (maxValue : JsNum) : Option (List ℕ) :=
  match maxValue with
  | .fin q =>
    if q < 0 then some []
    else if q = 0 then some [0]
    else some (fibLoopJs ((Rat.floor q).toNat + 3) 0 1 q [0, 1])
  | .negInf => some []
  | .posInf => none
  | .nan => none

/-- A detected pattern record `{type, confidence}`. -/
structure PatternRec where
  ptype : String
  confidence : JsNum
deriving DecidableEq

/-- Count of strictly ascending adjacent pairs (`numbers[i] > numbers[i-1]`)
in original order. -/
def ascCount (numbers : List JsNum) : ℕ :=
  ((numbers.zip numbers.tail).filter (fun p => jsLt p.1 p.2)).length

/-- Count of strictly descending adjacent pairs. -/
def descCount (numbers : List JsNum) : ℕ :=
  ((numbers.zip numbers.tail).filter (fun p => jsLt p.2 p.1)).length

/-- `aiService.detectNumericalPatterns`: an even/odd dominance record
(confidence fixed at 0.8) followed by an ascending/descending trend record
whose confidence is the supporting-pair count over `numbers.length - 1`. -/
def detectNumericalPatterns (numbers : List JsNum) : List PatternRec :=
  let evenCount := (numbers.filter (fun n => jsModIsZero n 2)).length
  let oddCount := numbers.length - evenCount
  let domPatterns : List PatternRec :=
    if oddCount * 2 < evenCount then [⟨"even_dominance", .fin (4/5)⟩]
    else if evenCount * 2 < oddCount then [⟨"odd_dominance", .fin (4/5)⟩]
    else []
  let ascending := ascCount numbers
  let descending := descCount numbers
  let trendPatterns : List PatternRec :=
    if (descending : ℚ) * 1.5 < (ascending : ℚ) then
      [⟨"ascending_trend", .fin ((ascending : ℚ) / ((numbers.length : ℚ) - 1))⟩]
    else if (ascending : ℚ) * 1.5 < (descending : ℚ) then
      [⟨"descending_trend", .fin ((descending : ℚ) / ((numbers.length : ℚ) - 1))⟩]
    else []
  domPatterns ++ trendPatterns

/-- Code points of the JavaScript `StrWhiteSpaceChar` set (whitespace and
line terminators trimmed by `Number(...)` and skipped by `parseFloat`). -/
def wsCodes : List ℕ :=
  [9, 10, 11, 12, 13, 32, 160, 0x1680, 0x2000, 0x2001, 0x2002, 0x2003,
   0x2004, 0x2005, 0x2006, 0x2007, 0x2008, 0x2009, 0x200A, 0x2028, 0x2029,
   0x202F, 0x205F, 0x3000, 0xFEFF]

/-- Whether a character is JavaScript string-numeric whitespace. -/
def isWsChar (c : Char) : Bool := wsCodes.contains c.toNat

/-- Decimal digit `0`-`9`. -/
def decDigit (c : Char) : Bool := decide (48 ≤ c.toNat) && decide (c.toNat ≤ 57)

/-- Hexadecimal digit. -/
def hexDigitB (c : Char) : Bool :=
  decDigit c || (decide (97 ≤ c.toNat) && decide (c.toNat ≤ 102)) ||
    (decide (65 ≤ c.toNat) && decide (c.toNat ≤ 70))

/-- Octal digit `0`-`7`. -/
def octDigitB (c : Char) : Bool := decide (48 ≤ c.toNat) && decide (c.toNat ≤ 55)

/-- Binary digit `0`-`1`. -/
def binDigitB (c : Char) : Bool := decide (48 ≤ c.toNat) && decide (c.toNat ≤ 49)

/-- Numeric value of a digit character (valid for bases up to 16). -/
def digitVal (c : Char) : ℕ :=
  if 97 ≤ c.toNat then c.toNat - 87
  else if 65 ≤ c.toNat then c.toNat - 55
  else c.toNat - 48

/-- Value of a run of decimal digits. -/
def digitsVal (ds : List Char) : ℕ := ds.foldl (fun a c => 10 * a + digitVal c) 0

/-- Value of a run of digits in base `r`. -/
def radixVal (r : ℕ) (ds : List Char) : ℕ := ds.foldl (fun a c => r * a + digitVal c) 0

/-- The characters of the literal `Infinity`. -/
def infinityChars : List Char := ['I', 'n', 'f', 'i', 'n', 'i', 't', 'y']

/-- Greedy parse of an unsigned decimal mantissa
(`digits`, `digits.digits?`, or `.digits`), returning its value and the
unread remainder. -/
def parseMantissa (cs : List Char) : Option (ℚ × List Char) :=
  let p := cs.span decDigit
  match p.2 with
  | c :: r2 =>
    if c = '.' then
      let pf := r2.span decDigit
      if p.1 = [] ∧ pf.1 = [] then none
      else some ((digitsVal p.1 : ℚ) + (digitsVal pf.1 : ℚ) / (10 : ℚ) ^ pf.1.length, pf.2)
    else if p.1 = [] then none else some ((digitsVal p.1 : ℚ), c :: r2)
  | [] => if p.1 = [] then none else some ((digitsVal p.1 : ℚ), [])

/-- Greedy parse of an optional exponent part (`e`/`E`, optional sign, one
or more digits); an incomplete exponent is not consumed, mirroring
`parseFloat`'s longest-valid-prefix rule. -/
def parseExpPart (cs : List Char) : ℤ × List Char :=
  match cs with
  | c :: rest =>
    if c = 'e' ∨ c = 'E' then
      match rest with
      | s :: rest2 =>
        if s = '+' then
          let pd := rest2.span decDigit
          if pd.1 = [] then (0, cs) else ((digitsVal pd.1 : ℤ), pd.2)
        else if s = '-' then
          let pd := rest2.span decDigit
          if pd.1 = [] then (0, cs) else (-(digitsVal pd.1 : ℤ), pd.2)
        else
          let pd := rest.span decDigit
          if pd.1 = [] then (0, cs) else ((digitsVal pd.1 : ℤ), pd.2)
      | [] => (0, cs)
    else (0, cs)
  | [] => (0, [])

/-- Greedy parse of a signed decimal literal or signed `Infinity` — the
`StrDecimalLiteral` grammar shared by `Number(...)` (which then requires
only whitespace to remain) and `parseFloat` (which ignores the remainder). -/
def parseDecimalValue (cs : List Char) : Option (JsNum × List Char) :=
  let sp : Bool × List Char :=
    match cs with
    | c :: r => if c = '-' then (true, r) else if c = '+' then (false, r) else (false, c :: r)
    | [] => (false, [])
  let neg := sp.1
  let cs1 := sp.2
  if infinityChars.isPrefixOf cs1 then
    some (if neg then JsNum.negInf else JsNum.posInf, cs1.drop 8)
  else
    match parseMantissa cs1 with
    | none => none
    | some (m, r1) =>
      let ep := parseExpPart r1
      let v := m * (10 : ℚ) ^ ep.1
      some (.fin (if neg then -v else v), ep.2)

/-- Greedy parse of an unsigned non-decimal integer literal
(`0x`/`0o`/`0b` with at least one digit), accepted by `Number(...)` but not
by `parseFloat`. -/
def parseRadixLiteral (cs : List Char) : Option (JsNum × List Char) :=
  match cs with
  | c0 :: x :: rest =>
    if c0 = '0' then
      if x = 'x' ∨ x = 'X' then
        let p := rest.span hexDigitB
        if p.1 = [] then none else some (.fin (radixVal 16 p.1 : ℚ), p.2)
      else if x = 'o' ∨ x = 'O' then
        let p := rest.span octDigitB
        if p.1 = [] then none else some (.fin (radixVal 8 p.1 : ℚ), p.2)
      else if x = 'b' ∨ x = 'B' then
        let p := rest.span binDigitB
        if p.1 = [] then none else some (.fin (radixVal 2 p.1 : ℚ), p.2)
      else none
    else none
  | _ => none

/-- ECMAScript `StringToNumber` (the conversion behind `Number(s)` and
`isNaN(s)`): skip leading whitespace; an all-whitespace string is `0`;
otherwise the remainder must be a numeric literal followed by nothing but
whitespace, else the result is NaN (`none`). -/
def stringToNumber (s : String) : Option JsNum :=
  let cs := s.data.dropWhile (fun c => isWsChar c)
  if cs = [] then some (.fin 0)
  else
    match parseRadixLiteral cs with
    | some (v, r) => if r.all isWsChar then some v else none
    | none =>
      match parseDecimalValue cs with
      | some (v, r) => if r.all isWsChar then some v else none
      | none => none

/-- Whether `parseFloat(s)` returns a number (not NaN): after skipping
leading whitespace some prefix must parse as a signed decimal literal or
signed `Infinity`. -/
def parseFloatSucceeds (s : String) : Bool :=
  (parseDecimalValue (s.data.dropWhile (fun c => isWsChar c))).isSome

/-- The numeric test of the classifier loop in `processBfhl`:
`!isNaN(item) && !isNaN(parseFloat(item))`, returning the value
`Number(item)` pushed into the numbers bucket when it holds.  A number
token (always finite after request validation) trivially passes both
tests with itself as the value. -/
def tokenNumericValue : Token → Option JsNum
  | .num q => some (.fin q)
  | .str s =>
    match stringToNumber s with
    | none => none
    | some v => if parseFloatSucceeds s then some v else none

/-- ASCII letter (the regex class `[a-zA-Z]`). -/
def isAsciiLetter (c : Char) : Bool :=
  (decide (65 ≤ c.toNat) && decide (c.toNat ≤ 90)) ||
    (decide (97 ≤ c.toNat) && decide (c.toNat ≤ 122))

/-- ASCII lowercase letter (the regex class `[a-z]`). -/
def isLowercaseLetter (c : Char) : Bool :=
  decide (97 ≤ c.toNat) && decide (c.toNat ≤ 122)

/-- The regex test `/^[a-zA-Z]$/` on a string. -/
def isSingleAsciiLetterString (s : String) : Bool :=
  match s.data with
  | [c] => isAsciiLetter c
  | _ => false

/-- The regex test `/^[a-z]$/` on a string. -/
def isSingleLowercaseString (s : String) : Bool :=
  match s.data with
  | [c] => isLowercaseLetter c
  | _ => false

/-- Rendering of an extended number as a string (`String(item)` /
`.map(String)`).  Integral values agree with JavaScript exactly; for
non-integral rationals JavaScript prints a shortest round-trip decimal for
the underlying double, idealised here as `num/den` — every use in this
development is a deterministic function of the value, which is all the
stated properties depend on. -/
def jsNumToString : JsNum → String
  | .fin q => if q.den = 1 then toString q.num else toString q.num ++ "/" ++ toString q.den
  | .posInf => "Infinity"
  | .negInf => "-Infinity"
  | .nan => "NaN"

/-- `String(item)` for a raw token. -/
def stringOfToken : Token → String
  | .num q => jsNumToString (.fin q)
  | .str s => s

/-- How the classifier loop disposes of one token. -/
inductive TokenClass where
  | numeric (v : JsNum)
  | alpha (s : String)
  | dropped
deriving DecidableEq

/-- One token's fate in the `for (const item of data)` loop of
`processBfhl`: numeric test first, then the single-letter regex on
`String(item)`, otherwise silently dropped. -/
def tokenClassify (t : Token) : TokenClass :=
  match tokenNumericValue t with
  | some v => .numeric v
  | none =>
    if isSingleAsciiLetterString (stringOfToken t) then .alpha (stringOfToken t)
    else .dropped

/-- The three buckets accumulated by the classifier loop. -/
structure ClassifyResult where
  numbers : List JsNum
  alphabets : List String
  lowercaseAlphabets : List String
deriving DecidableEq

/-- One iteration of the classifier loop. -/
def classifyStep (st : ClassifyResult) (t : Token) : ClassifyResult :=
  match tokenNumericValue t with
  | some v => ⟨st.numbers ++ [v], st.alphabets, st.lowercaseAlphabets⟩
  | none =>
    let s := stringOfToken t
    if isSingleAsciiLetterString s then
      if isSingleLowercaseString s then
        ⟨st.numbers, st.alphabets ++ [s], st.lowercaseAlphabets ++ [s]⟩
      else ⟨st.numbers, st.alphabets ++ [s], st.lowercaseAlphabets⟩
    else st

/-- The classifier section of `processBfhl`. -/
def classifyTokens (data : List Token) : ClassifyResult :=
  data.foldl classifyStep ⟨[], [], []⟩

/-- `lowercaseAlphabets.sort().pop()` wrapped in a singleton array (default
lexicographic sort; the entries are single characters). -/
def highestLowercaseAlphabet (lc : List String) : List String :=
  if lc = [] then []
  else [(insertionSortBy (fun a b => decide (a ≤ b)) lc).getLastD ""]

/-- Whether an extended number is finite (JavaScript `Number.isFinite`). -/
def isFiniteJs : JsNum → Bool
  | .fin _ => true
  | _ => false

/-- Specification model of `lcmAll` (§4.2 of the spec): filter out zeros,
take absolute integer-truncated values, left-fold the two-argument lcm,
`null` for empty input, the single value for a one-element filtered set,
`0` over all-zero input. -/
def specLcmAll (numbers : List ℚ) : Option ℚ :=
  if numbers = [] then none
  else
    match filteredNumbers numbers with
    | [] => some 0
    | [x] => some (x : ℚ)
    | x :: rest => some ((rest.foldl Nat.lcm x : ℕ) : ℚ)

/-- Specification model of `hcfAll` (§4.2 of the spec): as `specLcmAll` but
folding gcd, with `null` over all-zero input (the documented asymmetry). -/
def specHcfAll (numbers : List ℚ) : Option ℚ :=
  if numbers = [] then none
  else
    match filteredNumbers numbers with
    | [] => none
    | [x] => some (x : ℚ)
    | x :: rest => some ((rest.foldl Nat.gcd x : ℕ) : ℚ)

/-- Strip one leading `+`/`-` sign. -/
def stripSign (cs : List Char) : List Char :=
  match cs with
  | c :: r => if c = '+' ∨ c = '-' then r else cs
  | [] => []

/-- Spec-side recognizer: a complete exponent part (`e`/`E`, optional sign,
at least one digit) followed by only whitespace — or no exponent at all,
i.e. only whitespace remains. -/
def specExpEnd (cs : List Char) : Bool :=
  match cs with
  | [] => true
  | e :: r =>
    if e = 'e' ∨ e = 'E' then
      let r2 : List Char :=
        match r with
        | c :: rtl => if c = '+' ∨ c = '-' then rtl else r
        | [] => []
      let pd := r2.span decDigit
      (!pd.1.isEmpty) && pd.2.all isWsChar
    else cs.all isWsChar

/-- Spec-side recognizer: an unsigned finite decimal literal (digits with
optional point, fraction and exponent) followed by only whitespace. -/
def specUnsignedDec (cs : List Char) : Bool :=
  let p := cs.span decDigit
  match p.2 with
  | c :: r2 =>
    if c = '.' then
      let pf := r2.span decDigit
      (!(p.1.isEmpty && pf.1.isEmpty)) && specExpEnd pf.2
    else (!p.1.isEmpty) && specExpEnd (c :: r2)
  | [] => (!p.1.isEmpty) && specExpEnd []

/-- Spec-side recognizer: the literal `Infinity` followed by only
whitespace. -/
def specInfinityTail (cs : List Char) : Bool :=
  infinityChars.isPrefixOf cs && (cs.drop 8).all isWsChar

/-- Spec-side recognizer: an unsigned hexadecimal/octal/binary integer
literal followed by only whitespace. -/
def specRadix (cs : List Char) : Bool :=
  match cs with
  | c0 :: x :: rest =>
    if c0 = '0' then
      if x = 'x' ∨ x = 'X' then
        let p := rest.span hexDigitB
        (!p.1.isEmpty) && p.2.all isWsChar
      else if x = 'o' ∨ x = 'O' then
        let p := rest.span octDigitB
        (!p.1.isEmpty) && p.2.all isWsChar
      else if x = 'b' ∨ x = 'B' then
        let p := rest.span binDigitB
        (!p.1.isEmpty) && p.2.all isWsChar
      else false
    else false
  | _ => false

/-- The claim's numeric predicate, per the spec's words: the token parses
fully as a finite decimal number, leading/trailing whitespace tolerated
(a raw number token is trivially numeric). -/
def specFiniteDecimal : Token → Bool
  | .num _ => true
  | .str s =>
    let cs := s.data.dropWhile (fun c => isWsChar c)
    (!cs.isEmpty) && specUnsignedDec (stripSign cs)

/-- The amended numeric predicate: a nonempty JavaScript numeric literal
surrounded by whitespace — a signed finite decimal, a signed `Infinity`, or
an unsigned hexadecimal/octal/binary integer. -/
def specNumericAmended : Token → Bool
  | .num _ => true
  | .str s =>
    let cs := s.data.dropWhile (fun c => isWsChar c)
    (!cs.isEmpty) &&
      (specInfinityTail (stripSign cs) || specUnsignedDec (stripSign cs) || specRadix cs)

/-- The claim's alphabetic predicate: a string of exactly one ASCII
letter. -/
def specSingleLetter : Token → Bool
  | .num _ => false
  | .str s => isSingleAsciiLetterString s

/-- Complexity block of `assessDataComplexity`. -/
structure ComplexityBlock where
  level : String
  score : ℕ
  dataSize : ℕ
  numberDiversity : ℚ
  alphabetDiversity : ℚ
  numericalRange : JsNum
deriving DecidableEq

/-- `aiService.assessDataComplexity`.  `new Set(xs).size` is the number of
distinct elements (`dedup.length`); the diversity ratio is a JavaScript
division, NaN on an empty input, where both threshold comparisons are then
false. -/
def assessDataComplexity (numbers : List JsNum) (alphabets : List String) : ComplexityBlock :=
  let totalElements := numbers.length + alphabets.length
  let uniqueNumbers := numbers.dedup.length
  let uniqueAlphabets := alphabets.dedup.length
  let score1 : ℕ :=
    if 50 < totalElements then 3 else if 20 < totalElements then 2
    else if 10 < totalElements then 1 else 0
  let range := jsSub (jsMaxList numbers) (jsMinList numbers)
  let score2 : ℕ :=
    if numbers.length ≠ 0 then
      (if jsLt (.fin 1000) range then 2 else if jsLt (.fin 100) range then 1 else 0)
    else 0
  let diversityRatio :=
    jsDiv (.fin ((uniqueNumbers + uniqueAlphabets : ℕ) : ℚ)) (.fin (totalElements : ℚ))
  let score3 : ℕ :=
    if jsLt (.fin (4/5)) diversityRatio then 2
    else if jsLt (.fin (1/2)) diversityRatio then 1 else 0
  let score := score1 + score2 + score3
  let level := if 6 ≤ score then "high" else if 3 ≤ score then "medium" else "low"
  ⟨level, score, totalElements,
   (uniqueNumbers : ℚ) / (if numbers.length = 0 then 1 else (numbers.length : ℚ)),
   (uniqueAlphabets : ℚ) / (if alphabets.length = 0 then 1 else (alphabets.length : ℚ)),
   if numbers.length ≠ 0 then range else .fin 0⟩

/-- The test `'aeiouAEIOU'.includes(c)` on a single-character string. -/
def isVowelString (s : String) : Bool :=
  match s.data with
  | [c] => ['a', 'e', 'i', 'o', 'u', 'A', 'E', 'I', 'O', 'U'].contains c
  | _ => false

/-- `aiService.detectAlphabeticalPatterns`: case dominance (confidence 0.8)
then a vowel-heavy record. -/
def detectAlphabeticalPatterns (alphabets : List String) : List PatternRec :=
  let uppercaseCount := (alphabets.filter (fun c => c.map Char.toUpper = c)).length
  let lowercaseCount := alphabets.length - uppercaseCount
  let casePatterns : List PatternRec :=
    if lowercaseCount * 2 < uppercaseCount then [⟨"uppercase_dominance", .fin (4/5)⟩]
    else if uppercaseCount * 2 < lowercaseCount then [⟨"lowercase_dominance", .fin (4/5)⟩]
    else []
  let vowels := (alphabets.filter (fun c => isVowelString c)).length
  let consonants := alphabets.length - vowels
  casePatterns ++
    (if consonants < vowels then
      [⟨"vowel_heavy", .fin ((vowels : ℚ) / (alphabets.length : ℚ))⟩]
     else [])

/-- `aiService.isArithmeticSequence`: sort ascending, then every later
adjacent difference must be strictly equal (`!==` is true on NaN) to the
first difference. -/
def isArithmeticSequence (numbers : List JsNum) : Bool :=
  if numbers.length < 2 then false
  else
    let sorted := sortJs numbers
    let diff := jsSub (sorted.getD 1 .nan) (sorted.getD 0 .nan)
    ((sorted.drop 1).zip (sorted.drop 2)).all
      (fun p => jsStrictEq (jsSub p.2 p.1) diff)

/-- `aiService.isGeometricSequence`: false on short input or any exact zero;
otherwise every later adjacent ratio must stay within absolute tolerance
1e-4 of the first ratio (a NaN difference is not `> 1e-4`, so it passes,
exactly as in the source). -/
def isGeometricSequence (numbers : List JsNum) : Bool :=
  if numbers.length < 2 ∨ numbers.any (fun n => n = .fin 0) then false
  else
    let sorted := sortJs numbers
    let ratio := jsDiv (sorted.getD 1 .nan) (sorted.getD 0 .nan)
    ((sorted.drop 1).zip (sorted.drop 2)).all
      (fun p => !(jsLt (.fin (1/10000)) (jsAbs (jsSub (jsDiv p.2 p.1) ratio))))

/-- `c.charCodeAt(0)` (entries here are always single characters). -/
def headCode (s : String) : ℤ :=
  match s.data with
  | c :: _ => (c.toNat : ℤ)
  | [] => 0

/-- `aiService.isAlphabeticalSequence`: sort the code points ascending and
require every adjacent gap to be exactly 1. -/
def isAlphabeticalSequence (alphabets : List String) : Bool :=
  if alphabets.length < 2 then false
  else
    let codes := insertionSortBy (fun a b => decide (a ≤ b)) (alphabets.map headCode)
    (codes.zip codes.tail).all (fun p => decide (p.2 - p.1 = 1))

/-- `aiService.hasRepeatingPattern` on the string join of the data: the
first length `L` (1 ≤ L ≤ half the length) whose prefix, repeated
`⌊n/L⌋` times, reconstructs the string exactly. -/
def hasRepeatingPattern (data : List String) : Option (String × ℕ) :=
  let s := (data.foldl (fun a b => a ++ b) "").data
  let n := s.length
  (List.range' 1 (n / 2)).findSome? (fun len =>
    let pat := s.take len
    if s = (List.replicate (n / len) pat).flatten then some (String.mk pat, len)
    else none)

/-- The `sequence_analysis` object of `detectPatterns`. -/
structure SequenceAnalysis where
  isArithmetic : Bool
  isGeometric : Bool
  isAlphabetical : Bool
  hasRepetition : Option (String × ℕ)
deriving DecidableEq

/-- Output of `aiService.detectPatterns`. -/
structure PatternsBlock where
  numerical : List PatternRec
  alphabetical : List PatternRec
  seqAnalysis : SequenceAnalysis
deriving DecidableEq

/-- `aiService.detectPatterns`: numerical/alphabetical pattern lists are
only populated for three or more elements; the sequence analysis always
runs, with repetition checked on numbers (stringified) then letters. -/
def detectPatterns (numbers : List JsNum) (alphabets : List String) : PatternsBlock :=
  ⟨if 3 ≤ numbers.length then detectNumericalPatterns numbers else [],
   if 3 ≤ alphabets.length then detectAlphabeticalPatterns alphabets else [],
   ⟨isArithmeticSequence numbers, isGeometricSequence numbers,
    isAlphabeticalSequence alphabets,
    hasRepeatingPattern ((numbers.map jsNumToString) ++ alphabets)⟩⟩

/-- `aiService.assessConsistency`: deductions for non-finite numbers, very
large magnitudes, and non-single-character strings, floored at 0. -/
def assessConsistency (numbers : List JsNum) (alphabets : List String) : ℚ :=
  let s1 : ℚ := if numbers.any (fun n => !isFiniteJs n) then 3/10 else 0
  let s2 : ℚ := if numbers.any (fun n => jsLt (.fin 10000000000) (jsAbs n)) then 1/5 else 0
  let s3 : ℚ := if alphabets.any (fun a => a.length ≠ 1) then 3/10 else 0
  max 0 (1 - s1 - s2 - s3)

/-- `aiService.assessUniqueness`: distinct elements of the mixed
number/string spread over the total count (a JavaScript division, NaN when
both buckets are empty). -/
def assessUniqueness (numbers : List JsNum) (alphabets : List String) : JsNum :=
  jsDiv
    (.fin (((numbers.map Sum.inl ++ alphabets.map Sum.inr : List (JsNum ⊕ String)).dedup.length : ℕ) : ℚ))
    (.fin ((numbers.length + alphabets.length : ℕ) : ℚ))

/-- Output of `assessDataQuality`. -/
structure QualityBlock where
  completeness : ℚ
  consistency : ℚ
  validity : ℚ
  uniqueness : JsNum
  overall : JsNum
deriving DecidableEq

/-- `aiService.assessDataQuality`. -/
def assessDataQuality (numbers : List JsNum) (alphabets : List String) : QualityBlock :=
  let c := assessConsistency numbers alphabets
  let u := assessUniqueness numbers alphabets
  ⟨1, c, 1, u,
   jsDiv (jsAdd (jsAdd (jsAdd (.fin 1) (.fin c)) (.fin 1)) u) (.fin 4)⟩

/-- One recommendation record. -/
structure Recommendation where
  category : String
  suggestion : String
  priority : String
deriving DecidableEq

/-- The math block assembled by `processBfhl` when the numbers bucket is
nonempty (`lcm`/`hcf` are `null` — `none` — for fewer than two numbers). -/
structure MathResults where
  sum : JsNum
  product : JsNum
  maxV : JsNum
  minV : JsNum
  average : JsNum
  fibonacci : List ℕ
  primes : List JsNum
  lcm : Option JsNum
  hcf : Option JsNum
deriving DecidableEq

/-- `aiService.generateRecommendations`.  When the numbers bucket was empty
the controller passes the empty object `{}` (modelled `none`), whose
`.primes` is undefined, so the primes recommendation is skipped. -/
def generateRecommendations (numbers : List JsNum) (alphabets : List String)
    (math : Option MathResults) : List Recommendation :=
  (if alphabets.length * 3 < numbers.length then
    [⟨"data_processing", "Consider separate numerical analysis pipeline", "medium"⟩]
   else []) ++
  (if 100 < numbers.length then
    [⟨"performance", "Implement batch processing for large datasets", "high"⟩]
   else []) ++
  (match math with
   | some mb =>
     if mb.primes ≠ [] then
       [⟨"analysis", "Prime numbers detected - consider cryptographic applications", "low"⟩]
     else []
   | none => [])

/-- Result of `detectAnomalies` on the raw bucket; `stats` is the pair
(mean, variance) as in `AnomalyResult`. -/
structure AnomalyResultJs where
  anomalies : List JsNum
  methodTag : String
  stats : Option (JsNum × JsNum)
deriving DecidableEq

/-- The JavaScript mean `reduce((a,b) => a+b, 0) / length`. -/
def meanJs (numbers : List JsNum) : JsNum :=
  jsDiv (numbers.foldl jsAdd (.fin 0)) (.fin (numbers.length : ℚ))

/-- The JavaScript population variance `Σ (x − mean)² / n` over the raw
bucket. -/
def varJs (numbers : List JsNum) : JsNum :=
  jsDiv
    ((numbers.map (fun num =>
        jsMul (jsSub num (meanJs numbers)) (jsSub num (meanJs numbers)))).foldl jsAdd (.fin 0))
    (.fin (numbers.length : ℚ))

/-- `aiService.detectAnomalies` on the raw bucket.  With every element
finite this is exactly `detectAnomaliesRat`.  With a non-finite element the
mean is `±∞` or NaN, some variance term is `(±∞ − ±∞)² = NaN` (or NaN
propagates outright), so the variance and `stdDev = √variance` are NaN and
the filter `|x − mean| > 2·stdDev` rejects everything: the anomalies list
is empty and the reported statistics are the NaN-valued ones computed
here. -/
def detectAnomaliesJs (numbers : List JsNum) : AnomalyResultJs :=
  if numbers.length < 3 then ⟨[], "insufficient_data", none⟩
  else if numbers.all isFiniteJs then
    let finParts := numbers.filterMap (fun n =>
      match n with
      | .fin q => some q
      | _ => none)
    let r := detectAnomaliesRat finParts
    ⟨r.anomalies.map (fun q => .fin q), r.methodTag,
     r.stats.map (fun p => (.fin p.1, .fin p.2))⟩
  else ⟨[], "statistical_outlier", some (meanJs numbers, varJs numbers)⟩

/-- Output of `analyzeTextData`. -/
structure TextBlock where
  charFrequency : List (String × ℕ)
  uppercase : ℕ
  lowercase : ℕ
  vowelConsonantRatio : ℚ
deriving DecidableEq

/-- `getCharacterFrequency`: a first-occurrence-ordered association list
modelling the JavaScript frequency object. -/
def charFrequencyList (alphabets : List String) : List (String × ℕ) :=
  alphabets.foldl (fun acc ch =>
    if acc.any (fun p => p.1 = ch) then
      acc.map (fun p => if p.1 = ch then (p.1, p.2 + 1) else p)
    else acc ++ [(ch, 1)]) []

/-- `getVowelConsonantRatio`: vowels over consonants, or the vowel count
when there are no consonants. -/
def getVowelConsonantRatio (alphabets : List String) : ℚ :=
  let vowels := (alphabets.filter (fun c => isVowelString c)).length
  let consonants := alphabets.length - vowels
  if 0 < consonants then (vowels : ℚ) / (consonants : ℚ) else (vowels : ℚ)

/-- `aiService.analyzeTextData`. -/
def analyzeTextData (alphabets : List String) : TextBlock :=
  ⟨charFrequencyList alphabets,
   (alphabets.filter (fun c => c.map Char.toUpper = c)).length,
   (alphabets.filter (fun c => c.map Char.toLower = c)).length,
   getVowelConsonantRatio alphabets⟩

/-- Output of `detectClusters` when there are at least three numbers. -/
structure ClustersBlock where
  potentialClusters : ℕ
  averageGap : JsNum
  largeGaps : ℕ
deriving DecidableEq

/-- `aiService.detectClusters`: sort, take adjacent gaps, flag gaps above
twice the average; fewer than three numbers yields the empty-array result
(`none`). -/
def detectClusters (numbers : List JsNum) : Option ClustersBlock :=
  if numbers.length < 3 then none
  else
    let sorted := sortJs numbers
    let gaps := (sorted.zip sorted.tail).map (fun p => jsSub p.2 p.1)
    let avgGap := jsDiv (gaps.foldl jsAdd (.fin 0)) (.fin (gaps.length : ℚ))
    let largeGaps := (gaps.filter (fun gap => jsLt (jsMul avgGap (.fin 2)) gap)).length
    some ⟨largeGaps + 1, avgGap, largeGaps⟩

/-- `assessNormalDistribution`: `|mean − median| < |mean| · 0.1` with the
median read at index `⌊n/2⌋` of the sorted list. -/
def assessNormalDistribution (numbers : List JsNum) : Bool :=
  let mean := meanJs numbers
  let median := (sortJs numbers).getD (numbers.length / 2) .nan
  jsLt (jsAbs (jsSub mean median)) (jsMul (jsAbs mean) (.fin (1/10)))

/-- The third central moment `Σ (x − mean)³ / n`; together with the
variance it determines the skewness `m₃ / variance^(3/2)` reported by
`calculateSkewness` (0 when the deviation is 0, in which case `m₃ = 0`). -/
def thirdMomentJs (numbers : List JsNum) : JsNum :=
  jsDiv
    ((numbers.map (fun num =>
        jsMul (jsMul (jsSub num (meanJs numbers)) (jsSub num (meanJs numbers)))
          (jsSub num (meanJs numbers)))).foldl jsAdd (.fin 0))
    (.fin (numbers.length : ℚ))

/-- The fourth central moment `Σ (x − mean)⁴ / n`. -/
def fourthMomentJs (numbers : List JsNum) : JsNum :=
  jsDiv
    ((numbers.map (fun num =>
        jsMul (jsMul (jsSub num (meanJs numbers)) (jsSub num (meanJs numbers)))
          (jsMul (jsSub num (meanJs numbers)) (jsSub num (meanJs numbers))))).foldl
      jsAdd (.fin 0))
    (.fin (numbers.length : ℚ))

/-- `calculateKurtosis`: excess kurtosis `m₄ / variance² − 3` (the source
computes `Σ((x−μ)/σ)⁴/n − 3`, identical for finite `σ > 0`; it returns 0
when `σ = 0`, and NaN propagates on non-finite buckets in both forms). -/
def calculateKurtosisJs (numbers : List JsNum) : JsNum :=
  let v := varJs numbers
  if v = .fin 0 then .fin 0
  else jsSub (jsDiv (fourthMomentJs numbers) (jsMul v v)) (.fin 3)

/-- The distribution analysis inside `analyzeNumericalData`; skewness is
represented by its determining pair (third moment, variance). -/
structure DistributionBlock where
  isNormal : Bool
  skewThirdMoment : JsNum
  variance : JsNum
  excessKurtosis : JsNum
deriving DecidableEq

/-- Output of `analyzeNumericalData`. -/
structure NumericalInsights where
  distribution : DistributionBlock
  mathematicalProperties : Option MathResults
  clusteringHints : Option ClustersBlock
deriving DecidableEq

/-- `aiService.analyzeNumericalData`: `null` on an empty bucket. -/
def analyzeNumericalData (numbers : List JsNum) (math : Option MathResults) :
    Option NumericalInsights :=
  if numbers.length = 0 then none
  else
    some ⟨⟨assessNormalDistribution numbers,
           (if varJs numbers = .fin 0 then .fin 0 else thirdMomentJs numbers),
           varJs numbers, calculateKurtosisJs numbers⟩,
          math, detectClusters numbers⟩

/-- Decoded upload metadata (the output of `processFile`, passed through to
the analysis; the base64/MIME decoding itself is outside the analytic
core). -/
structure FileInfo where
  fileValid : Bool
  fileMimeType : String
  fileSizeKb : ℚ
deriving DecidableEq

/-- `categorizeFileType`. -/
def categorizeFileType (mimeType : String) : String :=
  if mimeType.startsWith ("image/") then "image"
  else if mimeType.startsWith ("text/") then "text"
  else if decide (List.IsInfix ("json".data) mimeType.data) then "data"
  else if decide (List.IsInfix ("pdf".data) mimeType.data) then "document"
  else "binary"

/-- `categorizeFileSize`. -/
def categorizeFileSize (sizeKb : ℚ) : String :=
  if sizeKb < 10 then "small"
  else if sizeKb < 100 then "medium"
  else if sizeKb < 1000 then "large"
  else "very_large"

/-- `getFileRecommendations`. -/
def getFileRecommendations (fi : FileInfo) : List String :=
  (if 1000 < fi.fileSizeKb then ["Consider file compression"] else []) ++
  (if fi.fileMimeType = "application/octet-stream" then
    ["File type unclear - consider adding file extension"]
   else [])

/-- Output of `analyzeFileData`. -/
structure FileInsights where
  typeCategory : String
  sizeCategory : String
  recommendations : List String
deriving DecidableEq

/-- `aiService.analyzeFileData`. -/
def analyzeFileData (fi : FileInfo) : FileInsights :=
  ⟨categorizeFileType fi.fileMimeType, categorizeFileSize fi.fileSizeKb,
   getFileRecommendations fi⟩

/-- `aiService.calculateConfidenceScore`: base 0.5 plus fixed increments for
size, mixed buckets, full uniqueness, and a valid file, capped at 1. -/
def calculateConfidenceScore (numbers : List JsNum) (alphabets : List String)
    (fi : FileInfo) : ℚ :=
  let s1 : ℚ := if 10 < numbers.length + alphabets.length then 1/5 else 0
  let s2 : ℚ := if numbers.length ≠ 0 ∧ alphabets.length ≠ 0 then 1/10 else 0
  let s3 : ℚ :=
    if (numbers.map Sum.inl ++ alphabets.map Sum.inr : List (JsNum ⊕ String)).dedup.length
        = numbers.length + alphabets.length then 1/10 else 0
  let s4 : ℚ := if fi.fileValid then 1/10 else 0
  min 1 (1/2 + s1 + s2 + s3 + s4)

/-- `aiService.calculateAIConfidence`: base 0.5 plus increments for each
collaborator word that is truthy and not a failure literal, capped at 1. -/
def calculateAIConfidence (analysis sentiment recommendation : String) : ℚ :=
  let c1 : ℚ := if analysis ≠ "" ∧ analysis ≠ "error" ∧ analysis ≠ "unavailable" then 1/5 else 0
  let c2 : ℚ := if sentiment ≠ "" ∧ sentiment ≠ "unknown" ∧ sentiment ≠ "error" then 3/20 else 0
  let c3 : ℚ := if recommendation ≠ "" ∧ recommendation ≠ "retry" ∧ recommendation ≠ "error" then 3/20 else 0
  min 1 (1/2 + c1 + c2 + c3)

/-- The per-request environment: configuration, clock and randomness reads,
and the words produced by the external Gemini collaborator (or by its error
handlers).  Everything the pipeline consumes that is not part of the input
data or file is a field here. -/
structure Env where
  email : String
  rollNumber : String
  geminiEnabled : Bool
  geminiAnalysisResp : String
  geminiSentimentResp : String
  geminiRecommendationResp : String
  nowMillis : ℕ
  randSuffix : String
  procTimeMs : ℚ
  analysisDurationMs : ℕ
deriving DecidableEq

/-- `getSingleWordAnalysis`: the fixed fallback without an API key,
otherwise whatever single word the collaborator (or its error handler)
produced. -/
def getSingleWordAnalysis (env : Env) : String :=
  if env.geminiEnabled then env.geminiAnalysisResp else "unavailable"

/-- `getDataSentiment`. -/
def getDataSentiment (env : Env) : String :=
  if env.geminiEnabled then env.geminiSentimentResp else "neutral"

/-- `getAIRecommendation`. -/
def getAIRecommendation (env : Env) : String :=
  if env.geminiEnabled then env.geminiRecommendationResp else "optimize"

/-- The `ai_powered_insights` object. -/
structure AiPoweredInsights where
  geminiAnalysis : String
  dataSentiment : String
  aiRecommendation : String
  aiConfidence : ℚ
deriving DecidableEq

/-- Output of `aiService.analyzeData`. -/
structure AiAnalysis where
  aiPoweredInsights : AiPoweredInsights
  dataComplexity : ComplexityBlock
  patternDetection : PatternsBlock
  dataQuality : QualityBlock
  recommendations : List Recommendation
  anomalyDetection : AnomalyResultJs
  textAnalysis : TextBlock
  numericalInsights : Option NumericalInsights
  fileInsights : Option FileInsights
  confidenceScore : ℚ
  analysisDurationMs : ℕ
  apiStatus : String
deriving DecidableEq

/-- `aiService.analyzeData`: the three collaborator words and the timing
metadata come from the environment; every analytic block is computed from
the buckets, math results and file metadata alone. -/
def analyzeData (numbers : List JsNum) (alphabets : List String)
    (math : Option MathResults) (fi : FileInfo) (env : Env) : AiAnalysis :=
  let ga := getSingleWordAnalysis env
  let gs := getDataSentiment env
  let gr := getAIRecommendation env
  ⟨⟨ga, gs, gr, calculateAIConfidence ga gs gr⟩,
   assessDataComplexity numbers alphabets,
   detectPatterns numbers alphabets,
   assessDataQuality numbers alphabets,
   generateRecommendations numbers alphabets math,
   detectAnomaliesJs numbers,
   analyzeTextData alphabets,
   analyzeNumericalData numbers math,
   (if fi.fileValid then some (analyzeFileData fi) else none),
   calculateConfidenceScore numbers alphabets fi,
   env.analysisDurationMs,
   (if env.geminiEnabled then "enabled" else "disabled")⟩

/-- `Math.abs(Math.floor(num))` on a bucket value. -/
def truncAbsJs : JsNum → JsNum
  | .fin q => .fin ((Rat.floor q).natAbs : ℚ)
  | .nan => .nan
  | _ => .posInf

/-- `isPrime` on a bucket value: `-∞` fails `n < 2` at once; on `+∞` the
trial-division bound `i <= Math.sqrt(n)` never fails and the loop runs
forever (`none`); on NaN every comparison is false, so the loop body is
skipped and the function returns true. -/
def isPrimeJs : JsNum → Option Bool
  | .fin q => some (isPrime q)
  | .negInf => some false
  | .nan => some true
  | .posInf => none

/-- `getPrimeNumbers` on the raw bucket; a `+∞` element hangs the scan. -/
def getPrimeNumbersJs (numbers : List JsNum) : Option (List JsNum) :=
  if numbers.any (fun n => n = .posInf) then none
  else some (sortJs (numbers.filter (fun n => (isPrimeJs n).getD false)))

/-- `gcdTwoNumbers` on (already truncated, absolute) bucket values.  A zero
partner terminates at once (`gcd(a, 0) = a` before the loop; `gcd(0, b)`
after one step, returning `b`); two finite values run the Euclidean loop on
their natural parts; an infinite operand with a nonzero partner drives `b`
to NaN and the `while (b !== 0)` loop never exits (`none`). -/
def gcdTwoJs (a b : JsNum) : Option JsNum :=
  if b = .fin 0 then some (jsAbs a)
  else if a = .fin 0 then some (jsAbs b)
  else
    match a, b with
    | .fin x, .fin y => some (.fin ((gcdTwoNumbers x.num.toNat y.num.toNat : ℕ) : ℚ))
    | _, _ => none

/-- `lcmTwoNumbers` on bucket values: `0` short-circuits; otherwise
`|a*b| / gcd(a,b)`, which hangs in the gcd call when an operand is
infinite. -/
def lcmTwoJs (a b : JsNum) : Option JsNum :=
  if a = .fin 0 ∨ b = .fin 0 then some (.fin 0)
  else
    match a, b with
    | .fin x, .fin y => some (.fin ((lcmTwoNumbers x.num.toNat y.num.toNat : ℕ) : ℚ))
    | _, _ => none

/-- `Array.prototype.reduce` without initial value over a possibly-hanging
binary operation. -/
def foldPairwise (f : JsNum → JsNum → Option JsNum) : JsNum → List JsNum → Option JsNum
  | acc, [] => some acc
  | acc, b :: bs =>
    match f acc b with
    | none => none
    | some c => foldPairwise f c bs

/-- `calculateLCM` on the raw bucket: the outer `Option` is divergence of
the request, the inner one the `null` result. -/
def calculateLCMJs (numbers : List JsNum) : Option (Option JsNum) :=
  if numbers.length = 0 then some none
  else if numbers.length = 1 then some (some (jsAbs (numbers.getD 0 .nan)))
  else
    let filtered := (numbers.filter (fun num => !(jsStrictEq num (.fin 0)))).map truncAbsJs
    match filtered with
    | [] => some (some (.fin 0))
    | [x] => some (some x)
    | x :: rest => (foldPairwise lcmTwoJs x rest).map (fun v => some v)

/-- `calculateHCF` on the raw bucket. -/
def calculateHCFJs (numbers : List JsNum) : Option (Option JsNum) :=
  if numbers.length = 0 then some none
  else if numbers.length = 1 then some (some (jsAbs (numbers.getD 0 .nan)))
  else
    let filtered := (numbers.filter (fun num => !(jsStrictEq num (.fin 0)))).map truncAbsJs
    match filtered with
    | [] => some none
    | [x] => some (some x)
    | x :: rest => (foldPairwise gcdTwoJs x rest).map (fun v => some v)

/-- The `mathResults` object built by `processBfhl` for a nonempty numbers
bucket: `none` when any of the awaited computations never returns. -/
def mathResultsOf (numbers : List JsNum) : Option MathResults :=
  match getFibonacciSequence (jsMaxList numbers), getPrimeNumbersJs numbers,
        (if 1 < numbers.length then calculateLCMJs numbers else some none),
        (if 1 < numbers.length then calculateHCFJs numbers else some none) with
  | some fib, some primes, some lcmOpt, some hcfOpt =>
    some ⟨numbers.foldl jsAdd (.fin 0), numbers.foldl jsMul (.fin 1),
          jsMaxList numbers, jsMinList numbers,
          jsDiv (numbers.foldl jsAdd (.fin 0)) (.fin (numbers.length : ℚ)),
          fib, primes, lcmOpt, hcfOpt⟩
  | _, _, _, _ => none

/-- `generateUserId`: email prefix stripped to alphanumerics, then the
timestamp and the random fragment (the base-36 renderings are idealised as
decimal — any injective rendering of the same environment reads). -/
def generateUserId (env : Env) : String :=
  let emailPart :=
    String.mk ((env.email.data.takeWhile (fun c => c ≠ '@')).filter
      (fun c => isAsciiLetter c || decDigit c))
  emailPart ++ "_" ++ toString env.nowMillis ++ "_" ++ env.randSuffix

/-- The JSON response of `POST /bfhl` (flattened; nesting carries no
semantics). -/
structure Response where
  userId : String
  email : String
  rollNumber : String
  numbers : List String
  alphabets : List String
  highestLowercase : List String
  fileValid : Bool
  fileMimeType : String
  fileSizeKb : ℚ
  geminiAiInsights : AiPoweredInsights
  processingTimeMs : ℚ
  dataCount : ℕ
  numbersCount : ℕ
  alphabetsCount : ℕ
  mathematicalOperations : Option MathResults
  aiInsights : AiAnalysis
  summaryPatternDetected : String
  summaryDataSentiment : String
  summaryRecommendedAction : String
  summaryAiConfidence : ℚ
  summaryGeminiEnabled : Bool
deriving DecidableEq

/-- `bfhlController.processBfhl`: classify, build the math block (empty
object `none` for an empty bucket), run the analysis, and assemble the
response.  `none` models a request that never completes (a divergent math
computation). -/
def processBfhl (data : List Token) (fi : FileInfo) (env : Env) : Option Response :=
  let c := classifyTokens data
  let mathOpt : Option (Option MathResults) :=
    if c.numbers.length ≠ 0 then (mathResultsOf c.numbers).map (fun m => some m)
    else some none
  match mathOpt with
  | none => none
  | some mathBlock =>
    let ai := analyzeData c.numbers c.alphabets mathBlock fi env
    some ⟨generateUserId env, env.email, env.rollNumber,
          c.numbers.map jsNumToString, c.alphabets,
          highestLowercaseAlphabet c.lowercaseAlphabets,
          fi.fileValid, fi.fileMimeType, fi.fileSizeKb,
          ai.aiPoweredInsights, env.procTimeMs,
          data.length, c.numbers.length, c.alphabets.length,
          mathBlock, ai,
          ai.aiPoweredInsights.geminiAnalysis, ai.aiPoweredInsights.dataSentiment,
          ai.aiPoweredInsights.aiRecommendation, ai.aiPoweredInsights.aiConfidence,
          env.geminiEnabled⟩

/-- The InsightReport of the specification (§6): the response fields that
are functions of the input alone — buckets, highest lowercase letter, math
block, patterns, anomalies and clusters. -/
structure CoreReport where
  numbers : List String
  alphabets : List String
  highestLowercase : List String
  math : Option MathResults
  patterns : PatternsBlock
  anomalies : AnomalyResultJs
  clusters : Option ClustersBlock
deriving DecidableEq

/-- Projection of a response onto the InsightReport fields. -/
def coreReport (r : Response) : CoreReport :=
  ⟨r.numbers, r.alphabets, r.highestLowercase, r.mathematicalOperations,
   r.aiInsights.patternDetection, r.aiInsights.anomalyDetection,
   r.aiInsights.numericalInsights.bind (fun ni => ni.clusteringHints)⟩

/-- Invariant maintained by the frequency scan of `calculateMode`: the
modes list is duplicate-free, nonempty once anything has been seen, bounded
by `maxFreq`, and holds exactly the values whose count in the processed
prefix is positive and equal to `maxFreq`. -/
def ModeInv (st : ModeState) : Prop :=
  st.modes.Nodup ∧
  (∀ v : ℚ, st.seen.count v ≤ st.maxFreq) ∧
  (st.seen ≠ [] → st.modes ≠ []) ∧
  (st.modes = [] → st.maxFreq = 0) ∧
  (∀ v : ℚ, v ∈ st.modes ↔ (0 < st.seen.count v ∧ st.seen.count v = st.maxFreq))

/-!
Supporting lemmas and the claim theorems.
-/

theorem mem_insertSortedBy (le : α → α → Bool) (x v : α) (l : List α) :
    v ∈ insertSortedBy le x l ↔ v = x ∨ v ∈ l := by
  induction l with
  | nil => simp [insertSortedBy]
  | cons y ys ih =>
    by_cases h : le x y = true
    · simp [insertSortedBy, h]
    · simp only [insertSortedBy, h, Bool.false_eq_true, if_false, List.mem_cons, ih]
      tauto

theorem mem_insertionSortBy (le : α → α → Bool) (v : α) (l : List α) :
    v ∈ insertionSortBy le l ↔ v ∈ l := by
  induction l with
  | nil => simp [insertionSortBy]
  | cons x xs ih =>
    simp [insertionSortBy, mem_insertSortedBy, ih]

theorem gcdTwoNumbers_eq_gcd (a b : ℕ) : gcdTwoNumbers a b = Nat.gcd a b := by
  induction b using Nat.strong_induction_on generalizing a with
  | _ b ih =>
    rw [gcdTwoNumbers]
    by_cases hb : b = 0
    · simp [hb]
    · rw [if_neg hb, ih (a % b) (Nat.mod_lt _ (Nat.pos_of_ne_zero hb)),
        Nat.gcd_comm a b, Nat.gcd_rec b a, Nat.gcd_comm]

theorem lcmTwoNumbers_eq_lcm (a b : ℕ) : lcmTwoNumbers a b = Nat.lcm a b := by
  unfold lcmTwoNumbers
  by_cases h : a = 0 ∨ b = 0
  · rcases h with h | h <;> simp [h, Nat.lcm]
  · rw [if_neg h, gcdTwoNumbers_eq_gcd, Nat.lcm]

theorem foldl_gcd_dvd (l : List ℕ) (a : ℕ) :
    (l.foldl gcdTwoNumbers a) ∣ a ∧ ∀ x ∈ l, (l.foldl gcdTwoNumbers a) ∣ x := by
  induction l generalizing a with
  | nil => simp
  | cons b bs ih =>
    simp only [List.foldl_cons]
    have h := ih (gcdTwoNumbers a b)
    have hab : (bs.foldl gcdTwoNumbers (gcdTwoNumbers a b)) ∣ gcdTwoNumbers a b := h.1
    refine ⟨?_, ?_⟩
    · exact dvd_trans hab (by rw [gcdTwoNumbers_eq_gcd]; exact Nat.gcd_dvd_left a b)
    · intro x hx
      rcases List.mem_cons.mp hx with rfl | hx
      · exact dvd_trans hab (by rw [gcdTwoNumbers_eq_gcd]; exact Nat.gcd_dvd_right a x)
      · exact h.2 x hx

theorem foldl_lcm_dvd (l : List ℕ) (a : ℕ) :
    a ∣ (l.foldl lcmTwoNumbers a) ∧ ∀ x ∈ l, x ∣ (l.foldl lcmTwoNumbers a) := by
  induction l generalizing a with
  | nil => simp
  | cons b bs ih =>
    simp only [List.foldl_cons]
    have h := ih (lcmTwoNumbers a b)
    have hab : lcmTwoNumbers a b ∣ (bs.foldl lcmTwoNumbers (lcmTwoNumbers a b)) := h.1
    refine ⟨?_, ?_⟩
    · exact dvd_trans (by rw [lcmTwoNumbers_eq_lcm]; exact Nat.dvd_lcm_left a b) hab
    · intro x hx
      rcases List.mem_cons.mp hx with rfl | hx
      · exact dvd_trans (by rw [lcmTwoNumbers_eq_lcm]; exact Nat.dvd_lcm_right a x) hab
      · exact h.2 x hx

theorem varQ_nonneg (l : List ℚ) : 0 ≤ varQ l := by
  unfold varQ
  apply div_nonneg
  · apply List.sum_nonneg
    intro x hx
    simp only [List.mem_map] at hx
    obtain ⟨a, _, rfl⟩ := hx
    positivity
  · positivity

theorem anomalyCmp_iff (x m v : ℚ) (hv : (0:ℚ) ≤ v) :
    (4 * v < (x - m) ^ 2) ↔ 2 * Real.sqrt (v : ℝ) < |(x : ℝ) - (m : ℝ)| := by
  have hv4 : (0:ℝ) ≤ 4 * (v:ℝ) := by
    have : (0:ℝ) ≤ (v:ℝ) := by exact_mod_cast hv
    linarith
  have h4 : (2:ℝ) * Real.sqrt (v:ℝ) = Real.sqrt (4 * (v:ℝ)) := by
    rw [show (4:ℝ) * (v:ℝ) = 2 ^ 2 * (v:ℝ) by ring,
      Real.sqrt_mul (by norm_num) (v:ℝ), Real.sqrt_sq (by norm_num)]
  rw [h4, ← Real.sqrt_sq_eq_abs ((x:ℝ) - (m:ℝ)), Real.sqrt_lt_sqrt_iff hv4]
  constructor <;> intro h <;> exact_mod_cast h

theorem filteredNumbers_of_allZero (l : List ℚ) (hall : ∀ x ∈ l, x = 0) :
    filteredNumbers l = [] := by
  unfold filteredNumbers
  have : l.filter (fun num => num ≠ 0) = [] := by
    rw [List.filter_eq_nil_iff]
    intro a ha
    simp [hall a ha]
  rw [this]
  rfl

/-- C3 counterexample: contrary to the claimed asymmetry on the one-element
all-zero list, `calculateHCF([0])` is `0`, not `null` (the one-element
short-circuit runs before the zero filter). -/
theorem c3_hcf_singleton_zero_not_null :
    calculateHCF [(0 : ℚ)] = some 0 ∧ calculateHCF [(0 : ℚ)] ≠ none := by
  constructor <;> decide

/-- C3 (amended): for every all-zero input with at least two elements,
`lcmAll` returns `0` while `hcfAll` returns `null`; the one-element list
`[0]` short-circuits before zero filtering and both return `0`. -/
theorem c3_all_zero_asymmetry :
    (∀ l : List ℚ, 2 ≤ l.length → (∀ x ∈ l, x = 0) →
      calculateLCM l = some 0 ∧ calculateHCF l = none) ∧
    calculateLCM [(0 : ℚ)] = some 0 ∧ calculateHCF [(0 : ℚ)] = some 0 ∧
    calculateLCM [(0 : ℚ), 0] = some 0 ∧ calculateHCF [(0 : ℚ), 0] = none := by
  refine ⟨?_, by decide, by decide, by decide, by decide⟩
  intro l hlen hall
  have hfn := filteredNumbers_of_allZero l hall
  have h0 : ¬(l.length = 0) := by omega
  have h1 : ¬(l.length = 1) := by omega
  constructor
  · simp only [calculateLCM, if_neg h0, if_neg h1, hfn]
  · simp only [calculateHCF, if_neg h0, if_neg h1, hfn]

/-- C3 witness: the general statement applied to `[0, 0]`. -/
theorem c3_all_zero_asymmetry_witness :
    calculateLCM [(0 : ℚ), 0] = some 0 ∧ calculateHCF [(0 : ℚ), 0] = none :=
  c3_all_zero_asymmetry.1 [0, 0] (by decide) (by decide)

/-- C5 counterexample: a one-element input is not zero-filtered or
truncated — `lcmAll([2.7])` returns `2.7` itself, where the spec's
fold-over-truncated-values description yields `2`. -/
theorem c5_singleton_not_truncated :
    calculateLCM [(27 : ℚ)/10] = some ((27 : ℚ)/10) ∧
    specLcmAll [(27 : ℚ)/10] = some 2 ∧
    calculateLCM [(27 : ℚ)/10] ≠ specLcmAll [(27 : ℚ)/10] := by
  refine ⟨by with_unfolding_all decide, by with_unfolding_all decide,
    by with_unfolding_all decide⟩

theorem foldl_lcmTwoNumbers_eq (rest : List ℕ) (x : ℕ) :
    rest.foldl lcmTwoNumbers x = rest.foldl Nat.lcm x := by
  have hfun : lcmTwoNumbers = Nat.lcm :=
    funext fun a => funext fun b => lcmTwoNumbers_eq_lcm a b
  rw [hfun]

theorem foldl_gcdTwoNumbers_eq (rest : List ℕ) (x : ℕ) :
    rest.foldl gcdTwoNumbers x = rest.foldl Nat.gcd x := by
  have hfun : gcdTwoNumbers = Nat.gcd :=
    funext fun a => funext fun b => gcdTwoNumbers_eq_gcd a b
  rw [hfun]

/-- C5 (amended): both functions return `null` on the empty list; a
one-element input returns the raw absolute value, bypassing the
filter/truncate pipeline; on two or more elements they agree exactly with
the spec's filter–truncate–fold description (including the all-zero
asymmetry and the single-filtered-value case). -/
theorem c5_lcm_hcf_structure :
    calculateLCM [] = none ∧ calculateHCF [] = none ∧
    (∀ x : ℚ, calculateLCM [x] = some |x| ∧ calculateHCF [x] = some |x|) ∧
    (∀ l : List ℚ, 2 ≤ l.length →
      calculateLCM l = specLcmAll l ∧ calculateHCF l = specHcfAll l) := by
  refine ⟨by decide, by decide, ?_, ?_⟩
  · intro x
    constructor <;> rfl
  · intro l hlen
    have h0 : ¬(l.length = 0) := by omega
    have h1 : ¬(l.length = 1) := by omega
    have hne : ¬(l = []) := by
      intro h
      rw [h] at hlen
      simp at hlen
    constructor
    · simp only [calculateLCM, specLcmAll, if_neg h0, if_neg h1, if_neg hne]
      cases hf : filteredNumbers l with
      | nil => rfl
      | cons x rest =>
        cases rest with
        | nil => rfl
        | cons y rest2 =>
          show some (((y :: rest2).foldl lcmTwoNumbers x : ℕ) : ℚ)
            = some (((y :: rest2).foldl Nat.lcm x : ℕ) : ℚ)
          rw [foldl_lcmTwoNumbers_eq]
    · simp only [calculateHCF, specHcfAll, if_neg h0, if_neg h1, if_neg hne]
      cases hf : filteredNumbers l with
      | nil => rfl
      | cons x rest =>
        cases rest with
        | nil => rfl
        | cons y rest2 =>
          show some (((y :: rest2).foldl gcdTwoNumbers x : ℕ) : ℚ)
            = some (((y :: rest2).foldl Nat.gcd x : ℕ) : ℚ)
          rw [foldl_gcdTwoNumbers_eq]

/-- C5 witness: the ≥2-element agreement applied to `[4, 6]`, where both
sides evaluate to lcm 12 and hcf 2. -/
theorem c5_lcm_hcf_structure_witness :
    (calculateLCM [(4 : ℚ), 6] = specLcmAll [(4 : ℚ), 6] ∧
     calculateHCF [(4 : ℚ), 6] = specHcfAll [(4 : ℚ), 6]) ∧
    specLcmAll [(4 : ℚ), 6] = some 12 ∧ specHcfAll [(4 : ℚ), 6] = some 2 :=
  ⟨c5_lcm_hcf_structure.2.2.2 [4, 6] (by decide), by decide, by decide⟩

/-- C4 counterexample: on `[1/2]` the zero-filtered truncated set is the
nonempty `[0]`, yet `lcmAll` returns the non-integer `1/2` (the one-element
short-circuit), which is divisible by no element of that set — the claimed
divisibility fails. -/
theorem c4_divisibility_fails_on_fractional_singleton :
    filteredNumbers [(1 : ℚ)/2] ≠ [] ∧
    ¬(∃ m : ℕ, calculateLCM [(1 : ℚ)/2] = some (m : ℚ) ∧
        ∀ s ∈ filteredNumbers [(1 : ℚ)/2], s ∣ m) := by
  constructor
  · with_unfolding_all decide
  · rintro ⟨m, hm, -⟩
    have heval : calculateLCM [(1 : ℚ)/2] = some ((1 : ℚ)/2) := by
      with_unfolding_all decide
    rw [heval] at hm
    have h2 : ((1 : ℚ)/2) = (m : ℚ) := Option.some.inj hm
    have hden : ((1 : ℚ)/2).den = ((m : ℚ)).den := congrArg Rat.den h2
    rw [Rat.den_natCast] at hden
    exact absurd hden (by with_unfolding_all decide)

/-- C4 (amended): for inputs with at least two elements, and for one-element
integer inputs, `hcfAll` returns a natural number dividing every element of
the zero-filtered truncated set and `lcmAll` returns a natural number
divisible by every element of that set (one-element non-integer inputs
escape the truncation and are excluded). -/
theorem c4_hcf_divides_lcm_divisible :
    ∀ l : List ℚ, (2 ≤ l.length ∨ ∃ n : ℤ, l = [(n : ℚ)]) →
      filteredNumbers l ≠ [] →
      ((∃ h : ℕ, calculateHCF l = some (h : ℚ) ∧ ∀ s ∈ filteredNumbers l, h ∣ s) ∧
       (∃ m : ℕ, calculateLCM l = some (m : ℚ) ∧ ∀ s ∈ filteredNumbers l, s ∣ m)) := by
  intro l hcase hne
  rcases hcase with hlen | ⟨n, rfl⟩
  · have h0 : ¬(l.length = 0) := by omega
    have h1 : ¬(l.length = 1) := by omega
    constructor
    · cases hf : filteredNumbers l with
      | nil => exact absurd hf hne
      | cons x rest =>
        cases rest with
        | nil =>
          refine ⟨x, ?_, ?_⟩
          · simp only [calculateHCF, if_neg h0, if_neg h1, hf]
          · intro s hs
            simp only [List.mem_singleton] at hs
            exact hs ▸ dvd_refl x
        | cons y rest2 =>
          refine ⟨(y :: rest2).foldl gcdTwoNumbers x, ?_, ?_⟩
          · simp only [calculateHCF, if_neg h0, if_neg h1, hf]
          · intro s hs
            rcases List.mem_cons.mp hs with rfl | hs
            · exact (foldl_gcd_dvd (y :: rest2) s).1
            · exact (foldl_gcd_dvd (y :: rest2) x).2 s hs
    · cases hf : filteredNumbers l with
      | nil => exact absurd hf hne
      | cons x rest =>
        cases rest with
        | nil =>
          refine ⟨x, ?_, ?_⟩
          · simp only [calculateLCM, if_neg h0, if_neg h1, hf]
          · intro s hs
            simp only [List.mem_singleton] at hs
            exact hs ▸ dvd_refl x
        | cons y rest2 =>
          refine ⟨(y :: rest2).foldl lcmTwoNumbers x, ?_, ?_⟩
          · simp only [calculateLCM, if_neg h0, if_neg h1, hf]
          · intro s hs
            rcases List.mem_cons.mp hs with rfl | hs
            · exact (foldl_lcm_dvd (y :: rest2) s).1
            · exact (foldl_lcm_dvd (y :: rest2) x).2 s hs
  · have hn : n ≠ 0 := by
      intro h
      subst h
      exact hne (by with_unfolding_all decide)
    have hfl : filteredNumbers [(n : ℚ)] = [n.natAbs] := by
      unfold filteredNumbers
      rw [List.filter_cons]
      simp only [List.filter_nil]
      rw [if_pos (by simpa using (by exact_mod_cast hn : ((n : ℚ)) ≠ 0))]
      simp only [List.map_cons, List.map_nil, Rat.floor_def']
      simp
    have habs : |((n : ℚ))| = ((n.natAbs : ℕ) : ℚ) := by
      simp [Int.cast_natAbs, Int.cast_abs]
    constructor
    · refine ⟨n.natAbs, ?_, ?_⟩
      · show some |([(n : ℚ)]).headI| = _
        simp only [List.headI, habs]
      · intro s hs
        rw [hfl] at hs
        simp only [List.mem_singleton] at hs
        exact hs ▸ dvd_refl _
    · refine ⟨n.natAbs, ?_, ?_⟩
      · show some |([(n : ℚ)]).headI| = _
        simp only [List.headI, habs]
      · intro s hs
        rw [hfl] at hs
        simp only [List.mem_singleton] at hs
        exact hs ▸ dvd_refl _

/-- C4 witness: the amended statement applied to `[4, 6]`. -/
theorem c4_hcf_divides_lcm_divisible_witness :
    (∃ h : ℕ, calculateHCF [(4 : ℚ), 6] = some (h : ℚ) ∧
      ∀ s ∈ filteredNumbers [(4 : ℚ), 6], h ∣ s) ∧
    (∃ m : ℕ, calculateLCM [(4 : ℚ), 6] = some (m : ℚ) ∧
      ∀ s ∈ filteredNumbers [(4 : ℚ), 6], s ∣ m) :=
  c4_hcf_divides_lcm_divisible [4, 6] (Or.inl (by decide)) (by decide)

/-- C2 counterexample: on `[1, 2, 3, 4, 100]` the mean is 22 as claimed but
100 is not flagged — `|100 − 22| = 78` while the threshold is
`2·√1522 ≈ 78.03` (in exact terms, `78² = 6084 ≤ 6088 = 4·1522`), so the
anomaly list is empty. -/
theorem c2_100_not_flagged :
    meanQ [1, 2, 3, 4, 100] = 22 ∧ varQ [1, 2, 3, 4, 100] = 1522 ∧
    (100 : ℚ) ∉ (detectAnomaliesRat [1, 2, 3, 4, 100]).anomalies ∧
    (detectAnomaliesRat [1, 2, 3, 4, 100]).anomalies = [] := by
  refine ⟨by with_unfolding_all decide, by with_unfolding_all decide,
    by with_unfolding_all decide, by with_unfolding_all decide⟩

/-- C2 (amended): outlier detection needs at least 3 numbers and flags
exactly the values `x` with `|x − mean| > 2·stddev` (population standard
deviation `√variance`); on `[1, 2, 3, 4, 100]` the mean is 22 and the
variance 1522, and nothing is flagged since `78 ≤ 2·√1522`. -/
theorem c2_detectAnomalies_characterization :
    (∀ (l : List ℚ) (x : ℚ),
      x ∈ (detectAnomaliesRat l).anomalies ↔
        (3 ≤ l.length ∧ x ∈ l ∧
         2 * Real.sqrt ((varQ l : ℚ) : ℝ) < |(x : ℝ) - ((meanQ l : ℚ) : ℝ)|)) ∧
    meanQ [1, 2, 3, 4, 100] = 22 ∧ varQ [1, 2, 3, 4, 100] = 1522 ∧
    (detectAnomaliesRat [1, 2, 3, 4, 100]).anomalies = [] := by
  refine ⟨?_, by with_unfolding_all decide, by with_unfolding_all decide,
    by with_unfolding_all decide⟩
  intro l x
  by_cases hlen : l.length < 3
  · simp only [detectAnomaliesRat, if_pos hlen]
    simp only [List.not_mem_nil, false_iff, not_and]
    intro h3
    omega
  · simp only [detectAnomaliesRat, if_pos, if_neg hlen]
    rw [List.mem_filter]
    constructor
    · rintro ⟨hx, hcmp⟩
      refine ⟨by omega, hx, ?_⟩
      have := of_decide_eq_true hcmp
      exact (anomalyCmp_iff x (meanQ l) (varQ l) (varQ_nonneg l)).mp this
    · rintro ⟨-, hx, hcmp⟩
      refine ⟨hx, ?_⟩
      exact decide_eq_true
        ((anomalyCmp_iff x (meanQ l) (varQ l) (varQ_nonneg l)).mpr hcmp)

theorem count_append_singleton (l : List ℚ) (num v : ℚ) :
    (l ++ [num]).count v = l.count v + (if v = num then 1 else 0) := by
  rw [List.count_append, List.count_singleton']
  by_cases h : v = num
  · simp [h]
  · simp [h, Ne.symm h]

theorem modeStep_seen (st : ModeState) (num : ℚ) :
    (modeStep st num).seen = st.seen ++ [num] := by
  unfold modeStep
  dsimp only
  split
  · rfl
  · split
    · rfl
    · rfl

theorem modeInv_step (st : ModeState) (num : ℚ) (h : ModeInv st) :
    ModeInv (modeStep st num) := by
  obtain ⟨hnd, hbound, hne, hzero, hmem⟩ := h
  unfold modeStep
  dsimp only
  have hfval : (st.seen ++ [num]).count num = st.seen.count num + 1 := by
    rw [count_append_singleton]
    simp
  by_cases h1 : st.maxFreq < (st.seen ++ [num]).count num
  · rw [if_pos h1, hfval]
    rw [hfval] at h1
    refine ⟨List.nodup_singleton num, ?_, ?_, ?_, ?_⟩
    · show ∀ v : ℚ, (st.seen ++ [num]).count v ≤ st.seen.count num + 1
      intro v
      rw [count_append_singleton]
      by_cases hv : v = num
      · subst hv
        simp
      · simp only [if_neg hv, add_zero]
        have := hbound v
        omega
    · intro _
      show [num] ≠ []
      simp
    · intro hc
      simp at hc
    · show ∀ v : ℚ, v ∈ [num] ↔
        (0 < (st.seen ++ [num]).count v ∧
         (st.seen ++ [num]).count v = st.seen.count num + 1)
      intro v
      rw [List.mem_singleton, count_append_singleton]
      by_cases hv : v = num
      · subst hv
        simp only [eq_self_iff_true, if_true]
        simp
      · simp only [if_neg hv, add_zero]
        constructor
        · intro hc
          exact absurd hc hv
        · rintro ⟨-, heq⟩
          exfalso
          have := hbound v
          omega
  · rw [if_neg h1]
    by_cases h2 : (st.seen ++ [num]).count num = st.maxFreq ∧ num ∉ st.modes
    · rw [if_pos h2]
      obtain ⟨hfm, hnotin⟩ := h2
      rw [hfval] at hfm h1
      refine ⟨?_, ?_, ?_, ?_, ?_⟩
      · show (st.modes ++ [num]).Nodup
        rw [List.nodup_append]
        refine ⟨hnd, List.nodup_singleton num, ?_⟩
        intro a ha hb
        rw [List.mem_singleton] at hb
        subst hb
        exact hnotin ha
      · show ∀ v : ℚ, (st.seen ++ [num]).count v ≤ st.maxFreq
        intro v
        rw [count_append_singleton]
        by_cases hv : v = num
        · subst hv
          simp only [eq_self_iff_true, if_true]
          omega
        · simp only [if_neg hv, add_zero]
          exact hbound v
      · intro _
        show st.modes ++ [num] ≠ []
        simp
      · intro hc
        simp at hc
      · show ∀ v : ℚ, v ∈ st.modes ++ [num] ↔
          (0 < (st.seen ++ [num]).count v ∧ (st.seen ++ [num]).count v = st.maxFreq)
        intro v
        rw [List.mem_append, List.mem_singleton, count_append_singleton]
        by_cases hv : v = num
        · subst hv
          simp only [eq_self_iff_true, if_true]
          constructor
          · intro _
            exact ⟨Nat.succ_pos _, by omega⟩
          · intro _
            exact Or.inr trivial
        · simp only [if_neg hv, add_zero]
          rw [← hmem v]
          constructor
          · rintro (h | h)
            · exact h
            · exact absurd h hv
          · intro h
            exact Or.inl h
    · rw [if_neg h2]
      push_neg at h2
      refine ⟨hnd, ?_, ?_, ?_, ?_⟩
      · show ∀ v : ℚ, (st.seen ++ [num]).count v ≤ st.maxFreq
        intro v
        rw [count_append_singleton]
        by_cases hv : v = num
        · subst hv
          simp only [eq_self_iff_true, if_true]
          rw [hfval] at h1
          omega
        · simp only [if_neg hv, add_zero]
          exact hbound v
      · intro _
        show st.modes ≠ []
        intro hmodes
        have hmf := hzero hmodes
        rw [hfval] at h1
        omega
      · exact hzero
      · show ∀ v : ℚ, v ∈ st.modes ↔
          (0 < (st.seen ++ [num]).count v ∧ (st.seen ++ [num]).count v = st.maxFreq)
        intro v
        rw [count_append_singleton]
        by_cases hv : v = num
        · subst hv
          simp only [eq_self_iff_true, if_true]
          rw [hfval] at h1 h2
          have hnotin : v ∉ st.modes := by
            intro hin
            have hc := (hmem v).mp hin
            omega
          constructor
          · intro hin
            exact absurd hin hnotin
          · rintro ⟨-, heq⟩
            exact absurd (h2 (by omega)) hnotin
        · simp only [if_neg hv, add_zero]
          exact hmem v

theorem modeInv_init : ModeInv ⟨[], 0, []⟩ := by
  refine ⟨List.nodup_nil, ?_, ?_, ?_, ?_⟩
  · intro v
    simp
  · intro h
    exact absurd rfl h
  · intro _
    rfl
  · intro v
    simp

theorem modeFold_inv (l : List ℚ) :
    ∀ st : ModeState, ModeInv st → ModeInv (l.foldl modeStep st) := by
  induction l with
  | nil => exact fun st h => h
  | cons x xs ih => exact fun st h => ih _ (modeInv_step st x h)

theorem modeFold_seen (l : List ℚ) :
    ∀ st : ModeState, (l.foldl modeStep st).seen = st.seen ++ l := by
  induction l with
  | nil =>
    intro st
    simp
  | cons x xs ih =>
    intro st
    rw [List.foldl_cons, ih, modeStep_seen, List.append_assoc]
    rfl

theorem calculateMode_spec (l : List ℚ) (hne : l ≠ []) :
    (calculateMode l = none ↔ l.Nodup) ∧
    (∀ m, calculateMode l = some m →
      m.Nodup ∧ ∀ v, (v ∈ m ↔ v ∈ l ∧ ∀ w ∈ l, l.count w ≤ l.count v)) := by
  have hinv := modeFold_inv l ⟨[], 0, []⟩ modeInv_init
  have hseen : (l.foldl modeStep ⟨[], 0, []⟩).seen = l := by
    rw [modeFold_seen]
    rfl
  set st := l.foldl modeStep ⟨[], 0, []⟩ with hst
  obtain ⟨hnd, hbound, hnemp, hzero, hmem⟩ := hinv
  rw [hseen] at hbound hnemp hmem
  have hmodes_ne : st.modes ≠ [] := hnemp hne
  obtain ⟨u, hu⟩ := List.exists_mem_of_ne_nil st.modes hmodes_ne
  obtain ⟨hupos, hueq⟩ := (hmem u).mp hu
  have humem : u ∈ l := List.count_pos_iff.mp hupos
  have hchar : ∀ v, v ∈ st.modes ↔ (v ∈ l ∧ ∀ w ∈ l, l.count w ≤ l.count v) := by
    intro v
    rw [hmem v]
    constructor
    · rintro ⟨hpos, heq⟩
      refine ⟨List.count_pos_iff.mp hpos, ?_⟩
      intro w _
      rw [heq]
      exact hbound w
    · rintro ⟨hvl, hmax⟩
      have h1 : 0 < l.count v := List.count_pos_iff.mpr hvl
      have h2 : l.count v ≤ st.maxFreq := hbound v
      have h4 : l.count u ≤ l.count v := hmax u humem
      exact ⟨h1, by omega⟩
  have hsubset : st.modes.toFinset ⊆ l.toFinset := by
    intro a ha
    rw [List.mem_toFinset] at ha ⊢
    exact ((hchar a).mp ha).1
  have himp1 : st.modes.length = l.length → l.Nodup := by
    intro hl
    have hc1 : st.modes.toFinset.card = st.modes.length :=
      List.toFinset_card_of_nodup hnd
    have hc2 : l.toFinset.card = l.dedup.length := List.card_toFinset l
    have hc3 : st.modes.toFinset.card ≤ l.toFinset.card :=
      Finset.card_le_card hsubset
    have hc4 : l.dedup.length ≤ l.length := (List.dedup_sublist l).length_le
    have hdl : l.dedup.length = l.length := by omega
    rw [← List.dedup_eq_self]
    exact (List.dedup_sublist l).eq_of_length hdl
  have himp2 : l.Nodup → st.modes.length = l.length := by
    intro hnodup
    have hcount1 : ∀ w ∈ l, l.count w = 1 := fun w hw =>
      List.count_eq_one_of_mem hnodup hw
    have hiff : ∀ v, v ∈ st.modes ↔ v ∈ l := by
      intro v
      rw [hchar v]
      constructor
      · exact fun h => h.1
      · intro h
        refine ⟨h, fun w hw => ?_⟩
        rw [hcount1 w hw, hcount1 v h]
    have hfs : st.modes.toFinset = l.toFinset := by
      apply Finset.ext
      intro a
      rw [List.mem_toFinset, List.mem_toFinset]
      exact hiff a
    calc st.modes.length = st.modes.toFinset.card :=
          (List.toFinset_card_of_nodup hnd).symm
      _ = l.toFinset.card := by rw [hfs]
      _ = l.length := List.toFinset_card_of_nodup hnodup
  have hcm : calculateMode l =
      (if st.modes.length = l.length then none else some st.modes) := rfl
  constructor
  · rw [hcm]
    by_cases hl : st.modes.length = l.length
    · rw [if_pos hl]
      exact ⟨fun _ => himp1 hl, fun _ => rfl⟩
    · rw [if_neg hl]
      constructor
      · intro h
        exact absurd h (by simp)
      · intro hnodup
        exact absurd (himp2 hnodup) hl
  · intro m hm
    rw [hcm] at hm
    by_cases hl : st.modes.length = l.length
    · rw [if_pos hl] at hm
      exact absurd hm (by simp)
    · rw [if_neg hl] at hm
      have : st.modes = m := Option.some.inj hm
      subst this
      exact ⟨hnd, hchar⟩

/-- C6: for every non-empty list the mode is the set of maximum-frequency
values, except that when every value is unique the result is `null`; in
particular `mode([1,2,3]) = null` and `mode([1,1,2]) = [1]`. -/
theorem c6_mode_characterization :
    (∀ l : List ℚ, l ≠ [] →
      (calculateMode l = none ↔ l.Nodup) ∧
      (∀ m, calculateMode l = some m →
        m.Nodup ∧ ∀ v, (v ∈ m ↔ v ∈ l ∧ ∀ w ∈ l, l.count w ≤ l.count v))) ∧
    calculateMode [1, 2, 3] = none ∧ calculateMode [1, 1, 2] = some [1] := by
  refine ⟨calculateMode_spec, by with_unfolding_all decide, by with_unfolding_all decide⟩

/-- C6 witness: the characterization applied to `[1, 1, 2]`. -/
theorem c6_mode_characterization_witness :
    ([1, 1, 2] : List ℚ) ≠ [] ∧
    (calculateMode [1, 1, 2] = none ↔ ([1, 1, 2] : List ℚ).Nodup) :=
  ⟨by decide, (c6_mode_characterization.1 [1, 1, 2] (by decide)).1⟩

/-- C7: `detectNumericalPatterns` declares `ascending_trend` (resp.
`descending_trend`) exactly when the count of strictly ascending adjacent
pairs exceeds 1.5 times the descending count (resp. vice versa), with
confidence equal to the declared count over the number of adjacent pairs
(`numbers.length − 1`). -/
theorem c7_trend_characterization :
    ∀ (l : List JsNum) (c : JsNum),
      (((⟨"ascending_trend", c⟩ : PatternRec) ∈ detectNumericalPatterns l) ↔
        ((descCount l : ℚ) * 1.5 < (ascCount l : ℚ) ∧
         c = .fin ((ascCount l : ℚ) / ((l.length : ℚ) - 1)))) ∧
      (((⟨"descending_trend", c⟩ : PatternRec) ∈ detectNumericalPatterns l) ↔
        ((ascCount l : ℚ) * 1.5 < (descCount l : ℚ) ∧
         c = .fin ((descCount l : ℚ) / ((l.length : ℚ) - 1)))) := by
  intro l c
  unfold detectNumericalPatterns
  dsimp only
  constructor
  · rw [List.mem_append]
    constructor
    · rintro (hmem | hmem)
      · exfalso
        revert hmem
        split
        · intro hmem
          rw [List.mem_singleton, PatternRec.mk.injEq] at hmem
          exact absurd hmem.1 (by decide)
        · split
          · intro hmem
            rw [List.mem_singleton, PatternRec.mk.injEq] at hmem
            exact absurd hmem.1 (by decide)
          · intro hmem
            exact List.not_mem_nil _ hmem
      · revert hmem
        split
        next hcond =>
          intro hmem
          rw [List.mem_singleton, PatternRec.mk.injEq] at hmem
          exact ⟨hcond, hmem.2⟩
        next hcond =>
          split
          · intro hmem
            rw [List.mem_singleton, PatternRec.mk.injEq] at hmem
            exact absurd hmem.1 (by decide)
          · intro hmem
            exact absurd hmem (List.not_mem_nil _)
    · rintro ⟨hlt, hc⟩
      right
      rw [if_pos hlt, List.mem_singleton, hc]
  · rw [List.mem_append]
    constructor
    · rintro (hmem | hmem)
      · exfalso
        revert hmem
        split
        · intro hmem
          rw [List.mem_singleton, PatternRec.mk.injEq] at hmem
          exact absurd hmem.1 (by decide)
        · split
          · intro hmem
            rw [List.mem_singleton, PatternRec.mk.injEq] at hmem
            exact absurd hmem.1 (by decide)
          · intro hmem
            exact List.not_mem_nil _ hmem
      · revert hmem
        split
        next hcond =>
          intro hmem
          rw [List.mem_singleton, PatternRec.mk.injEq] at hmem
          exact absurd hmem.1 (by decide)
        next hcond =>
          split
          next hcond2 =>
            intro hmem
            rw [List.mem_singleton, PatternRec.mk.injEq] at hmem
            exact ⟨hcond2, hmem.2⟩
          next hcond2 =>
            intro hmem
            exact absurd hmem (List.not_mem_nil _)
    · rintro ⟨hlt, hc⟩
      right
      have hnasc : ¬((descCount l : ℚ) * 1.5 < (ascCount l : ℚ)) := by
        intro hasc
        have h1 : (0:ℚ) ≤ (descCount l : ℚ) := Nat.cast_nonneg _
        linarith
      rw [if_neg hnasc, if_pos hlt, List.mem_singleton, hc]

/-- C9: every non-integer rational greater than 2 passes `isPrime` (the
trial division only tests integer divisors, which never divide it), is not
counted composite, and therefore appears in the primes output whenever it
is among the input numbers. -/
theorem c9_isPrime_fractional :
    ∀ q : ℚ, q.den ≠ 1 → 2 < q →
      isPrime q = true ∧ isCompositeJs q = false ∧
      ∀ l : List ℚ, q ∈ l → q ∈ getPrimeNumbers l := by
  intro q hden h2
  have hmod : ∀ m : ℕ, ratModIsZero q m = false := by
    intro m
    unfold ratModIsZero
    simp [hden]
  have hp : isPrime q = true := by
    unfold isPrime
    rw [if_neg (not_lt.mpr (le_of_lt h2))]
    rw [if_neg (fun h => hden (by rw [h]; rfl))]
    rw [hmod 2]
    simp only [Bool.false_eq_true, if_false]
    rw [List.all_eq_true]
    intro i _
    rw [hmod i]
    rfl
  refine ⟨hp, ?_, ?_⟩
  · unfold isCompositeJs
    rw [hp]
    simp
  · intro l hl
    unfold getPrimeNumbers
    rw [mem_insertionSortBy, List.mem_filter]
    exact ⟨hl, hp⟩

/-- C9 witness: the statement applied to the non-integer 5/2. -/
theorem c9_isPrime_fractional_witness :
    ((5:ℚ)/2).den ≠ 1 ∧ (2:ℚ) < 5/2 ∧ isPrime ((5:ℚ)/2) = true ∧
    ((5:ℚ)/2) ∈ getPrimeNumbers [(5:ℚ)/2] :=
  ⟨by with_unfolding_all decide, by with_unfolding_all decide,
   (c9_isPrime_fractional ((5:ℚ)/2) (by with_unfolding_all decide)
     (by with_unfolding_all decide)).1,
   (c9_isPrime_fractional ((5:ℚ)/2) (by with_unfolding_all decide)
     (by with_unfolding_all decide)).2.2 [(5:ℚ)/2] (List.mem_singleton.mpr rfl)⟩

theorem mathResultsOf_single_gating (nums : List JsNum)
    (h1 : ¬(1 < nums.length)) (mb : MathResults)
    (hm : mathResultsOf nums = some mb) : mb.lcm = none ∧ mb.hcf = none := by
  unfold mathResultsOf at hm
  rw [if_neg h1, if_neg h1] at hm
  cases hfib : getFibonacciSequence (jsMaxList nums) with
  | none =>
    rw [hfib] at hm
    exact absurd hm (by simp)
  | some fib =>
    cases hpr : getPrimeNumbersJs nums with
    | none =>
      rw [hfib, hpr] at hm
      exact absurd hm (by simp)
    | some primes =>
      rw [hfib, hpr] at hm
      dsimp only at hm
      have heq := Option.some.inj hm
      rw [← heq]
      exact ⟨rfl, rfl⟩

/-- C10: in any completed response, when the classified numbers bucket has
fewer than two elements the `lcm` and `hcf` fields are `null` — with no
numbers the whole math block is the empty object, and with one number the
block is present with both fields `null`; the single-element values
`lcmAll`/`hcfAll` would return are never exposed. -/
theorem c10_lcm_hcf_null_below_two :
    ∀ (data : List Token) (fi : FileInfo) (env : Env) (r : Response),
      processBfhl data fi env = some r →
      (classifyTokens data).numbers.length < 2 →
      (((classifyTokens data).numbers.length = 0 ∧
        r.mathematicalOperations = none) ∨
       (∃ mb, r.mathematicalOperations = some mb ∧
        mb.lcm = none ∧ mb.hcf = none)) := by
  intro data fi env r hr hlen
  unfold processBfhl at hr
  dsimp only at hr
  by_cases h0 : (classifyTokens data).numbers.length ≠ 0
  · rw [if_pos h0] at hr
    cases hm : mathResultsOf (classifyTokens data).numbers with
    | none =>
      rw [hm] at hr
      exact absurd hr (by simp)
    | some mb =>
      rw [hm] at hr
      right
      have hrec := Option.some.inj hr
      have hgate := mathResultsOf_single_gating (classifyTokens data).numbers
        (by omega) mb hm
      exact ⟨mb, by rw [← hrec], hgate.1, hgate.2⟩
  · rw [if_neg h0] at hr
    left
    have hrec := Option.some.inj hr
    exact ⟨by omega, by rw [← hrec]⟩

/-- C10 witness: the statement applied to the single-number request
`[7]`, whose response carries a math block with `lcm = hcf = null`. -/
theorem c10_lcm_hcf_null_below_two_witness :
    ∃ r, processBfhl [Token.num 7] ⟨false, "", 0⟩
        ⟨"a@b.c", "R1", false, "", "", "", 5, "xyz", 2, 1⟩ = some r ∧
      (((classifyTokens [Token.num 7]).numbers.length = 0 ∧
        r.mathematicalOperations = none) ∨
       (∃ mb, r.mathematicalOperations = some mb ∧
        mb.lcm = none ∧ mb.hcf = none)) := by
  match hr : processBfhl [Token.num 7] ⟨false, "", 0⟩
      ⟨"a@b.c", "R1", false, "", "", "", 5, "xyz", 2, 1⟩ with
  | some r =>
    exact ⟨r, rfl, c10_lcm_hcf_null_below_two [Token.num 7] ⟨false, "", 0⟩
      ⟨"a@b.c", "R1", false, "", "", "", 5, "xyz", 2, 1⟩ r hr
      (by with_unfolding_all decide)⟩
  | none =>
    exact absurd hr (by with_unfolding_all decide)

/-- C8: the InsightReport projection of the response — buckets, highest
lowercase letter, math block, patterns, anomalies, clusters — is the same
for any two environments (timestamps, randomness, collaborator words,
configuration): the core report is a deterministic function of the input
data and file alone, and re-running the pipeline on identical input yields
an identical report. -/
theorem c8_core_report_env_independent :
    ∀ (data : List Token) (fi : FileInfo) (e1 e2 : Env),
      (processBfhl data fi e1).map coreReport =
        (processBfhl data fi e2).map coreReport := by
  intro data fi e1 e2
  unfold processBfhl
  dsimp only
  cases h : (if (classifyTokens data).numbers.length ≠ 0
      then (mathResultsOf (classifyTokens data).numbers).map (fun m => some m)
      else some none) with
  | none => rfl
  | some mathBlock => rfl

theorem wsChar_e_false : isWsChar 'e' = false := by decide

theorem expEnd_eq (cs : List Char) :
    specExpEnd cs = (parseExpPart cs).2.all isWsChar := by
  cases cs with
  | nil => rfl
  | cons e r =>
    simp only [specExpEnd, parseExpPart]
    by_cases he : e = 'e' ∨ e = 'E'
    · rw [if_pos he, if_pos he]
      have hews : isWsChar e = false := by
        rcases he with rfl | rfl <;> decide
      cases r with
      | nil =>
        dsimp only
        rw [List.span_eq_take_drop]
        dsimp only
        simp [List.all_cons, hews]
      | cons s r2 =>
        dsimp only
        by_cases hplus : s = '+'
        · rw [if_pos hplus, if_pos (by subst hplus; exact Or.inl rfl :
            s = '+' ∨ s = '-')]
          cases hpd : r2.span decDigit with
          | mk ds rest =>
            dsimp only
            by_cases hds : ds = []
            · rw [if_pos hds]
              simp [hds, List.all_cons, hews]
            · rw [if_neg hds]
              simp [hds]
        · by_cases hminus : s = '-'
          · rw [if_neg hplus, if_pos hminus,
              if_pos (Or.inr hminus : s = '+' ∨ s = '-')]
            cases hpd : r2.span decDigit with
            | mk ds rest =>
              dsimp only
              by_cases hds : ds = []
              · rw [if_pos hds]
                simp [hds, List.all_cons, hews]
              · rw [if_neg hds]
                simp [hds]
          · rw [if_neg hplus, if_neg hminus,
              if_neg (by rintro (h | h); exact hplus h; exact hminus h :
                ¬(s = '+' ∨ s = '-'))]
            cases hpd : (s :: r2).span decDigit with
            | mk ds rest =>
              dsimp only
              by_cases hds : ds = []
              · rw [if_pos hds]
                simp [hds, List.all_cons, hews]
              · rw [if_neg hds]
                simp [hds]
    · rw [if_neg he, if_neg he]

theorem mantissa_expEnd_eq (cs : List Char) :
    specUnsignedDec cs =
      (match parseMantissa cs with
       | none => false
       | some p => (parseExpPart p.2).2.all isWsChar) := by
  simp only [specUnsignedDec, parseMantissa]
  cases hsp : cs.span decDigit with
  | mk ip r1 =>
    dsimp only
    cases r1 with
    | nil =>
      by_cases hip : ip = []
      · rw [if_pos hip]
        simp [hip]
      · rw [if_neg hip]
        simp [hip, expEnd_eq]
    | cons c r2 =>
      dsimp only
      by_cases hc : c = '.'
      · rw [if_pos hc, if_pos hc]
        cases hpf : r2.span decDigit with
        | mk fp r3 =>
          dsimp only
          by_cases hboth : ip = [] ∧ fp = []
          · rw [if_pos hboth]
            obtain ⟨h1, h2⟩ := hboth
            simp [h1, h2]
          · rw [if_neg hboth]
            rw [expEnd_eq]
            have hb : (ip.isEmpty && fp.isEmpty) = false := by
              rcases not_and_or.mp hboth with h | h <;> simp [h]
            rw [hb]
            simp
      · rw [if_neg hc, if_neg hc]
        by_cases hip : ip = []
        · rw [if_pos hip]
          simp [hip]
        · rw [if_neg hip]
          simp [hip, expEnd_eq]

theorem radix_eq (cs : List Char) :
    specRadix cs =
      (match parseRadixLiteral cs with
       | none => false
       | some p => p.2.all isWsChar) := by
  simp only [specRadix, parseRadixLiteral]
  cases cs with
  | nil => rfl
  | cons c0 cs1 =>
    cases cs1 with
    | nil => rfl
    | cons x rest =>
      dsimp only
      by_cases h0 : c0 = '0'
      · rw [if_pos h0, if_pos h0]
        by_cases hx : x = 'x' ∨ x = 'X'
        · rw [if_pos hx, if_pos hx]
          cases hsp : rest.span hexDigitB with
          | mk ds r =>
            dsimp only
            by_cases hds : ds = []
            · rw [if_pos hds]
              simp [hds]
            · rw [if_neg hds]
              simp [hds]
        · rw [if_neg hx, if_neg hx]
          by_cases ho : x = 'o' ∨ x = 'O'
          · rw [if_pos ho, if_pos ho]
            cases hsp : rest.span octDigitB with
            | mk ds r =>
              dsimp only
              by_cases hds : ds = []
              · rw [if_pos hds]
                simp [hds]
              · rw [if_neg hds]
                simp [hds]
          · rw [if_neg ho, if_neg ho]
            by_cases hb : x = 'b' ∨ x = 'B'
            · rw [if_pos hb, if_pos hb]
              cases hsp : rest.span binDigitB with
              | mk ds r =>
                dsimp only
                by_cases hds : ds = []
                · rw [if_pos hds]
                  simp [hds]
                · rw [if_neg hds]
                  simp [hds]
            · rw [if_neg hb, if_neg hb]
      · rw [if_neg h0, if_neg h0]

theorem infinity_isPrefixOf_head (cs : List Char)
    (h : infinityChars.isPrefixOf cs = true) : ∃ tl, cs = 'I' :: tl := by
  cases cs with
  | nil => exact absurd h (by decide)
  | cons c r =>
    simp only [infinityChars, List.isPrefixOf, Bool.and_eq_true, beq_iff_eq] at h
    exact ⟨r, by rw [h.1]⟩

theorem specUnsignedDec_nondigit_head (c : Char) (r : List Char)
    (hd : decDigit c = false) (hdot : c ≠ '.') :
    specUnsignedDec (c :: r) = false := by
  have hspan : List.span decDigit (c :: r) = ([], c :: r) := by
    rw [List.span_eq_take_drop]
    simp [List.takeWhile_cons, List.dropWhile_cons, hd]
  simp only [specUnsignedDec, hspan]
  rw [if_neg hdot]
  simp

theorem specUnsignedDec_zero_sep (x : Char) (rest : List Char)
    (hd : decDigit x = false) (hdot : x ≠ '.') (he : x ≠ 'e') (hE : x ≠ 'E')
    (hw : isWsChar x = false) :
    specUnsignedDec ('0' :: x :: rest) = false := by
  have hspan : List.span decDigit ('0' :: x :: rest) = (['0'], x :: rest) := by
    rw [List.span_eq_take_drop]
    simp [List.takeWhile_cons, List.dropWhile_cons, hd, show decDigit '0' = true from rfl]
  simp only [specUnsignedDec, hspan]
  rw [if_neg hdot]
  have hee : ¬(x = 'e' ∨ x = 'E') := by
    rintro (h | h)
    · exact he h
    · exact hE h
  simp [specExpEnd, hee, List.all_cons, hw]

theorem specInfinityTail_nonI (c : Char) (r : List Char) (hc : c ≠ 'I') :
    specInfinityTail (c :: r) = false := by
  have hb : (('I' : Char) == c) = false := beq_eq_false_iff_ne.mpr (Ne.symm hc)
  simp [specInfinityTail, infinityChars, List.isPrefixOf, hb]

theorem decimalTail_aux (neg : Bool) (cs1 : List Char) :
    (match (if infinityChars.isPrefixOf cs1 then
              some (if neg then JsNum.negInf else JsNum.posInf, cs1.drop 8)
            else
              match parseMantissa cs1 with
              | none => none
              | some (m, r1) =>
                some (JsNum.fin
                        (if neg then -(m * (10 : ℚ) ^ (parseExpPart r1).1)
                         else m * (10 : ℚ) ^ (parseExpPart r1).1),
                      (parseExpPart r1).2)) with
     | none => false
     | some p => p.2.all isWsChar) =
      (if infinityChars.isPrefixOf cs1 then (cs1.drop 8).all isWsChar
       else
         match parseMantissa cs1 with
         | none => false
         | some p => (parseExpPart p.2).2.all isWsChar) := by
  by_cases hI : infinityChars.isPrefixOf cs1
  · rw [if_pos hI, if_pos hI]
  · rw [if_neg hI, if_neg hI]
    cases hpm : parseMantissa cs1 with
    | none => rfl
    | some p =>
      obtain ⟨m, r1⟩ := p
      rfl

theorem parseDecimalValue_tail_eq (cs : List Char) :
    (match parseDecimalValue cs with
     | none => false
     | some p => p.2.all isWsChar) =
      (if infinityChars.isPrefixOf (stripSign cs) then
         ((stripSign cs).drop 8).all isWsChar
       else
         match parseMantissa (stripSign cs) with
         | none => false
         | some p => (parseExpPart p.2).2.all isWsChar) := by
  cases cs with
  | nil => rfl
  | cons c r =>
    simp only [parseDecimalValue, stripSign]
    by_cases hm : c = '-'
    · subst hm
      simp only [reduceIte]
      exact decimalTail_aux true r
    · by_cases hp : c = '+'
      · subst hp
        simp only [reduceIte]
        exact decimalTail_aux false r
      · have hnot : ¬(c = '+' ∨ c = '-') := by
          rintro (h | h)
          · exact hp h
          · exact hm h
        simp only [if_neg hm, if_neg hp, if_neg hnot]
        exact decimalTail_aux false (c :: r)

theorem specDec_or_inf_eq (cs1 : List Char) :
    (specInfinityTail cs1 || specUnsignedDec cs1) =
      (if infinityChars.isPrefixOf cs1 then (cs1.drop 8).all isWsChar
       else
         match parseMantissa cs1 with
         | none => false
         | some p => (parseExpPart p.2).2.all isWsChar) := by
  by_cases hI : infinityChars.isPrefixOf cs1
  · rw [if_pos hI]
    obtain ⟨tl, htl⟩ := infinity_isPrefixOf_head cs1 hI
    subst htl
    rw [specUnsignedDec_nondigit_head 'I' tl (by decide) (by decide)]
    simp only [specInfinityTail]
    rw [hI]
    simp
  · rw [if_neg hI]
    rw [← mantissa_expEnd_eq]
    simp [specInfinityTail, hI]

theorem parseMantissa_zero_sep (x : Char) (rest : List Char)
    (hd : decDigit x = false) (hdot : x ≠ '.') :
    parseMantissa ('0' :: x :: rest) = some ((digitsVal ['0'] : ℚ), x :: rest) := by
  have hspan : List.span decDigit ('0' :: x :: rest) = (['0'], x :: rest) := by
    rw [List.span_eq_take_drop]
    simp [List.takeWhile_cons, List.dropWhile_cons, hd, show decDigit '0' = true from rfl]
  simp only [parseMantissa, hspan]
  rw [if_neg hdot]
  simp

theorem infinity_not_prefix_zero (x : Char) (rest : List Char) :
    infinityChars.isPrefixOf ('0' :: x :: rest) = false := by
  simp [infinityChars, List.isPrefixOf, show (('I' : Char) == '0') = false from rfl]

theorem parseDecimalValue_zero_sep (x : Char) (rest : List Char)
    (hd : decDigit x = false) (hdot : x ≠ '.') :
    (parseDecimalValue ('0' :: x :: rest)).isSome = true := by
  rw [show parseDecimalValue ('0' :: x :: rest) =
      (match parseMantissa ('0' :: x :: rest) with
       | none => none
       | some (m, r1) =>
         some (JsNum.fin (m * (10 : ℚ) ^ (parseExpPart r1).1), (parseExpPart r1).2)) from rfl]
  rw [parseMantissa_zero_sep x rest hd hdot]
  rfl

theorem radix_some_facts (cs : List Char) (v : JsNum) (r : List Char)
    (h : parseRadixLiteral cs = some (v, r)) :
    (parseDecimalValue cs).isSome = true ∧
      specUnsignedDec cs = false ∧
      specInfinityTail (stripSign cs) = false ∧ stripSign cs = cs := by
  cases cs with
  | nil => simp [parseRadixLiteral] at h
  | cons c0 cs1 =>
    cases cs1 with
    | nil => simp [parseRadixLiteral] at h
    | cons x rest =>
      simp only [parseRadixLiteral] at h
      by_cases h0 : c0 = '0'
      case neg =>
        rw [if_neg h0] at h
        exact absurd h (by simp)
      case pos =>
      subst h0
      rw [if_pos rfl] at h
      have hx : x = 'x' ∨ x = 'X' ∨ x = 'o' ∨ x = 'O' ∨ x = 'b' ∨ x = 'B' := by
        by_cases h1 : x = 'x' ∨ x = 'X'
        · rcases h1 with h1 | h1
          · exact Or.inl h1
          · exact Or.inr (Or.inl h1)
        · rw [if_neg h1] at h
          by_cases h2 : x = 'o' ∨ x = 'O'
          · rcases h2 with h2 | h2
            · exact Or.inr (Or.inr (Or.inl h2))
            · exact Or.inr (Or.inr (Or.inr (Or.inl h2)))
          · rw [if_neg h2] at h
            by_cases h3 : x = 'b' ∨ x = 'B'
            · rcases h3 with h3 | h3
              · exact Or.inr (Or.inr (Or.inr (Or.inr (Or.inl h3))))
              · exact Or.inr (Or.inr (Or.inr (Or.inr (Or.inr h3))))
            · rw [if_neg h3] at h
              exact absurd h (by simp)
      have hf : decDigit x = false ∧ x ≠ '.' ∧ x ≠ 'e' ∧ x ≠ 'E' ∧ isWsChar x = false := by
        rcases hx with rfl | rfl | rfl | rfl | rfl | rfl <;>
          exact ⟨by decide, by decide, by decide, by decide, by decide⟩
      obtain ⟨hd, hdot, he, hE, hw⟩ := hf
      refine ⟨parseDecimalValue_zero_sep x rest hd hdot,
        specUnsignedDec_zero_sep x rest hd hdot he hE hw, ?_, ?_⟩
      · rw [show stripSign ('0' :: x :: rest) = '0' :: x :: rest from by simp [stripSign]]
        exact specInfinityTail_nonI '0' (x :: rest) (by decide)
      · simp [stripSign]

theorem numericAux (cs : List Char) :
    (match
       (if cs = [] then some (JsNum.fin 0)
        else
          match parseRadixLiteral cs with
          | some (v, r) => if r.all isWsChar then some v else none
          | none =>
            match parseDecimalValue cs with
            | some (v, r) => if r.all isWsChar then some v else none
            | none => none) with
     | none => none
     | some v => if (parseDecimalValue cs).isSome then some v else none).isSome =
      (!cs.isEmpty &&
        (specInfinityTail (stripSign cs) || specUnsignedDec (stripSign cs) || specRadix cs)) := by
  by_cases hnil : cs = []
  · subst hnil
    with_unfolding_all decide
  · rw [if_neg hnil]
    have hne : cs.isEmpty = false := by
      cases cs with
      | nil => exact absurd rfl hnil
      | cons c r => rfl
    cases hr : parseRadixLiteral cs with
    | some p =>
      obtain ⟨v, r⟩ := p
      obtain ⟨hpf, hud, hit, hss⟩ := radix_some_facts cs v r hr
      rw [hss] at hit
      cases hws : r.all isWsChar <;>
        simp [hws, hne, hpf, hit, hud, hss, radix_eq cs, hr]
    | none =>
      have hcomb : (specInfinityTail (stripSign cs) || specUnsignedDec (stripSign cs)) =
          (match parseDecimalValue cs with
           | none => false
           | some p => p.2.all isWsChar) := by
        rw [specDec_or_inf_eq (stripSign cs), ← parseDecimalValue_tail_eq cs]
      cases hd : parseDecimalValue cs with
      | none =>
        rw [hd] at hcomb
        simp [hne, hcomb, radix_eq cs, hr, hd]
      | some p =>
        obtain ⟨v, r⟩ := p
        rw [hd] at hcomb
        cases hws : r.all isWsChar <;>
          simp [hws, hne, hcomb, radix_eq cs, hr, hd]

theorem tokenNumeric_eq_spec (t : Token) :
    (tokenNumericValue t).isSome = specNumericAmended t := by
  cases t with
  | num q => rfl
  | str s => exact numericAux (s.data.dropWhile (fun c => isWsChar c))

theorem isAsciiLetter_char_facts (c : Char) (h : isAsciiLetter c = true) :
    isWsChar c = false ∧ decDigit c = false ∧ c ≠ '+' ∧ c ≠ '-' ∧ c ≠ '.' := by
  have hb := h
  simp only [isAsciiLetter, Bool.or_eq_true, Bool.and_eq_true, decide_eq_true_eq] at hb
  refine ⟨?_, ?_, ?_, ?_, ?_⟩
  · rcases hw : isWsChar c with _ | _
    · rfl
    · exfalso
      simp [isWsChar, wsCodes] at hw
      omega
  · have h57 : ¬(c.toNat ≤ 57) := by omega
    simp [decDigit, h57]
  · intro he; subst he; exact absurd h (by decide)
  · intro he; subst he; exact absurd h (by decide)
  · intro he; subst he; exact absurd h (by decide)

theorem parseMantissa_nondigit (c : Char) (r : List Char)
    (hd : decDigit c = false) (hdot : c ≠ '.') :
    parseMantissa (c :: r) = none := by
  have hspan : List.span decDigit (c :: r) = ([], c :: r) := by
    rw [List.span_eq_take_drop]
    simp [List.takeWhile_cons, List.dropWhile_cons, hd]
  simp only [parseMantissa, hspan]
  rw [if_neg hdot]
  simp

theorem parseDecimalValue_letter (c : Char) (h : isAsciiLetter c = true) :
    parseDecimalValue [c] = none := by
  obtain ⟨hw, hd, hplus, hminus, hdot⟩ := isAsciiLetter_char_facts c h
  simp only [parseDecimalValue]
  simp only [if_neg hminus, if_neg hplus]
  have hpre : infinityChars.isPrefixOf [c] = false := by
    simp [infinityChars, List.isPrefixOf]
  rw [hpre]
  simp only [Bool.false_eq_true, if_false]
  rw [parseMantissa_nondigit c [] hd hdot]

theorem infinity_not_prefix_single (c : Char) :
    infinityChars.isPrefixOf [c] = false := by
  simp [infinityChars, List.isPrefixOf]

theorem tokenNumericValue_letter_none (s : String)
    (h : isSingleAsciiLetterString s = true) :
    tokenNumericValue (Token.str s) = none := by
  simp only [isSingleAsciiLetterString] at h
  rcases hs : s.data with _ | ⟨c, _ | ⟨d, tl⟩⟩ <;> rw [hs] at h
  · exact Bool.noConfusion h
  · have hc : isAsciiLetter c = true := h
    obtain ⟨hw, hd, hplus, hminus, hdot⟩ := isAsciiLetter_char_facts c hc
    have hspec : specNumericAmended (Token.str s) = false := by
      simp only [specNumericAmended]
      rw [hs]
      rw [show List.dropWhile (fun c => isWsChar c) [c] = [c] from by
        simp [List.dropWhile_cons, hw]]
      have hsgn : ¬(c = '+' ∨ c = '-') := by
        rintro (h' | h')
        · exact hplus h'
        · exact hminus h'
      have hss : stripSign [c] = [c] := by
        simp only [stripSign]
        rw [if_neg hsgn]
      rw [hss, specUnsignedDec_nondigit_head c [] hd hdot,
        show specRadix [c] = false from rfl]
      simp [specInfinityTail, infinity_not_prefix_single c]
    have hiso := tokenNumeric_eq_spec (Token.str s)
    rw [hspec] at hiso
    cases ht : tokenNumericValue (Token.str s) with
    | none => rfl
    | some v =>
      rw [ht] at hiso
      exact Bool.noConfusion hiso
  · exact Bool.noConfusion h

/-- C1 (counterexample to the original wording): the token `"Infinity"`
does not parse as a *finite* decimal number, yet the classifier places it
in the numbers bucket with the non-finite value `+∞` — so a non-finite
value does enter the numbers bucket. -/
theorem c1_infinity_counterexample :
    tokenClassify (Token.str "Infinity") = TokenClass.numeric JsNum.posInf ∧
      specFiniteDecimal (Token.str "Infinity") = false ∧
      isFiniteJs JsNum.posInf = false := by
  with_unfolding_all decide

/-- C1 (amended): a token enters the numbers bucket exactly when it is a
nonempty JavaScript numeric literal surrounded by optional whitespace — a
signed finite decimal, a signed `Infinity`, or an unsigned
hexadecimal/octal/binary integer literal; it enters the alphabets bucket
exactly when it is a string of exactly one ASCII letter; and it is
silently dropped exactly when it is neither. -/
theorem c1_classification (t : Token) :
    ((∃ v, tokenClassify t = TokenClass.numeric v) ↔ specNumericAmended t = true) ∧
      ((∃ a, tokenClassify t = TokenClass.alpha a) ↔ specSingleLetter t = true) ∧
      (tokenClassify t = TokenClass.dropped ↔
        (specNumericAmended t = false ∧ specSingleLetter t = false)) := by
  have hnum := tokenNumeric_eq_spec t
  refine ⟨?_, ?_, ?_⟩
  · constructor
    · rintro ⟨v, hv⟩
      simp only [tokenClassify] at hv
      cases ht : tokenNumericValue t with
      | some w =>
        rw [← hnum, ht]
        rfl
      | none =>
        rw [ht] at hv
        by_cases hl : isSingleAsciiLetterString (stringOfToken t)
        · rw [if_pos hl] at hv
          exact absurd hv (by simp)
        · rw [if_neg hl] at hv
          exact absurd hv (by simp)
    · intro hspec
      rw [← hnum] at hspec
      cases ht : tokenNumericValue t with
      | some w => exact ⟨w, by simp [tokenClassify, ht]⟩
      | none =>
        rw [ht] at hspec
        exact absurd hspec (by simp)
  · constructor
    · rintro ⟨a, ha⟩
      simp only [tokenClassify] at ha
      cases ht : tokenNumericValue t with
      | some w =>
        rw [ht] at ha
        exact absurd ha (by simp)
      | none =>
        rw [ht] at ha
        by_cases hl : isSingleAsciiLetterString (stringOfToken t)
        · cases t with
          | num q => exact absurd ht (by simp [tokenNumericValue])
          | str s => exact hl
        · rw [if_neg hl] at ha
          exact absurd ha (by simp)
    · intro hl
      cases t with
      | num q => exact Bool.noConfusion hl
      | str s =>
        simp only [specSingleLetter] at hl
        have hnone := tokenNumericValue_letter_none s hl
        exact ⟨s, by simp [tokenClassify, hnone, stringOfToken, hl]⟩
  · constructor
    · intro hd
      simp only [tokenClassify] at hd
      cases ht : tokenNumericValue t with
      | some w =>
        rw [ht] at hd
        exact absurd hd (by simp)
      | none =>
        rw [ht] at hd
        refine ⟨by rw [← hnum, ht]; rfl, ?_⟩
        by_cases hl : isSingleAsciiLetterString (stringOfToken t)
        · rw [if_pos hl] at hd
          exact absurd hd (by simp)
        · cases t with
          | num q => rfl
          | str s => simpa [specSingleLetter, stringOfToken] using hl
    · rintro ⟨h1, h2⟩
      rw [← hnum] at h1
      cases ht : tokenNumericValue t with
      | some w =>
        rw [ht] at h1
        exact absurd h1 (by simp)
      | none =>
        cases t with
        | num q => exact absurd ht (by simp [tokenNumericValue])
        | str s =>
          simp only [specSingleLetter] at h2
          simp [tokenClassify, ht, stringOfToken, h2]

/-- C1 witness: the classification applied to the single-letter token
`"a"`. -/
theorem c1_classification_witness :
    (∃ a, tokenClassify (Token.str "a") = TokenClass.alpha a) ↔
      specSingleLetter (Token.str "a") = true :=
  (c1_classification (Token.str "a")).2.1

/-- C2 witness: the characterization applied to the input `[1,2,3,4,100]`
at the value 100. -/
theorem c2_detectAnomalies_characterization_witness :
    (100 : ℚ) ∈ (detectAnomaliesRat [1, 2, 3, 4, 100]).anomalies ↔
      (3 ≤ ([1, 2, 3, 4, 100] : List ℚ).length ∧
       (100 : ℚ) ∈ ([1, 2, 3, 4, 100] : List ℚ) ∧
       2 * Real.sqrt ((varQ [1, 2, 3, 4, 100] : ℚ) : ℝ) <
         |((100 : ℚ) : ℝ) - ((meanQ [1, 2, 3, 4, 100] : ℚ) : ℝ)|) :=
  c2_detectAnomalies_characterization.1 [1, 2, 3, 4, 100] 100

/-- C7 witness: on the strictly increasing input `[1, 2, 3]` an ascending
trend is declared with confidence `2/2`. -/
theorem c7_trend_characterization_witness :
    (⟨"ascending_trend",
       JsNum.fin ((ascCount [JsNum.fin 1, JsNum.fin 2, JsNum.fin 3] : ℚ) /
         (([JsNum.fin 1, JsNum.fin 2, JsNum.fin 3].length : ℚ) - 1))⟩ : PatternRec) ∈
      detectNumericalPatterns [JsNum.fin 1, JsNum.fin 2, JsNum.fin 3] :=
  ((c7_trend_characterization [JsNum.fin 1, JsNum.fin 2, JsNum.fin 3] _).1).mpr
    ⟨by with_unfolding_all decide, rfl⟩

/-- C8 witness: the single-number request `[7]` processed under two
different environments yields the same core report. -/
theorem c8_core_report_env_independent_witness :
    (processBfhl [Token.num 7] ⟨false, "", 0⟩
        ⟨"a@b.c", "R1", false, "", "", "", 5, "xyz", 2, 1⟩).map coreReport =
      (processBfhl [Token.num 7] ⟨false, "", 0⟩
        ⟨"d@e.f", "R2", true, "p", "q", "r", 9, "abc", 3, 4⟩).map coreReport :=
  c8_core_report_env_independent [Token.num 7] ⟨false, "", 0⟩
    ⟨"a@b.c", "R1", false, "", "", "", 5, "xyz", 2, 1⟩
    ⟨"d@e.f", "R2", true, "p", "q", "r", 9, "abc", 3, 4⟩
